import Mathlib

/-!
Verification development for a text arithmetic-expression evaluator consisting of
a lexer (`getNextToken`), a recursive-descent parser (`runP` / `parse`) and a
tree-walking evaluator (`evaluateNode` / `evaluate`).  The definitions below are
a shallow embedding of the TypeScript sources: `src/logic/src/lexer.ts` (the
variant with INTEGER / IDENTIFIER / COMMA tokens), `src/logic/src/parser.ts`
(the variant with function-call support), `src/logic/src/evaluator.ts` and
`src/logic/src/index.ts`.  JavaScript numbers are modelled as rationals;
thrown JavaScript `Error`s are modelled as values of an error type carrying
the same data the error messages carry.
-/

namespace ExprEval

/-- Token kinds produced by the lexer (lexer.ts `TokenType`). -/
inductive TokenType
  | INTEGER | PLUS | MINUS | MUL | DIV | LPAREN | RPAREN | IDENTIFIER | COMMA | EOF
deriving DecidableEq

/-- Token payload: either text or an integer value (lexer.ts `value: string | number`). -/
inductive TokenValue
  | str (s : String)
  | num (n : Nat)
deriving DecidableEq

/-- A token with kind, payload and source position (lexer.ts `Token`). -/
structure Token where
  type : TokenType
  val : TokenValue
  position : Nat
deriving DecidableEq

/-- Whitespace test mirroring the JavaScript regular expression class \s. -/
def jsWhitespace (c : Char) : Bool :=
  c = ' ' || c = '\t' || c = '\n' || c = '\r' || c = '\x0b' || c = '\x0c' ||
  c = '\u00A0' || c = '\u1680' || ('\u2000' ≤ c && c ≤ '\u200A') ||
  c = '\u2028' || c = '\u2029' || c = '\u202F' || c = '\u205F' ||
  c = '\u3000' || c = '\uFEFF'

/-- Identifier start characters, the JavaScript class [a-zA-Z_]. -/
def isIdentStart (c : Char) : Bool :=
  ('a' ≤ c && c ≤ 'z') || ('A' ≤ c && c ≤ 'Z') || c = '_'

/-- Identifier continuation characters, the JavaScript class [a-zA-Z0-9_]. -/
def isIdentChar (c : Char) : Bool :=
  isIdentStart c || c.isDigit

/-- Base-10 value of a run of digit characters (lexer.ts `parseInteger`). -/
def digitsToNat (ds : List Char) : Nat :=
  ds.foldl (fun acc c => 10 * acc + (c.toNat - '0'.toNat)) 0

/-- The parse-error variants thrown by parser.ts, each carrying the data its
message interpolates. -/
inductive ParseErrKind
  | expectedToken (expected got : TokenType) (position : Nat)
  | bareIdentifier (position : Nat) (name : String)
  | unexpectedToken (position : Nat) (got : TokenType)
deriving DecidableEq

/-- The failures of the pipeline.  Each constructor corresponds to one family of
`Error` messages thrown by the sources; `outOfFuel` is an artifact of the
fuelled embedding of the parser and is proved unreachable. -/
inductive EvalError
  | lexInvalidChar (position : Nat) (c : Char)
  | parseError (k : ParseErrKind)
  | divisionByZero
  | unknownFunction (name : String)
  | functionInvocation (name : String) (cause : String)
  | outOfFuel
deriving DecidableEq

/-- Lexer.getNextToken: skip whitespace, then emit the token starting at the
cursor, returning the token together with the remaining characters and the
advanced cursor position.  Positions mirror lexer.ts `pos`. -/
def getNextToken : List Char → Nat → Except EvalError (Token × List Char × Nat)
  | [], pos => .ok (⟨.EOF, .str "", pos⟩, [], pos)
  | c :: cs, pos =>
    if jsWhitespace c then getNextToken cs (pos + 1)
    else if c.isDigit then
      .ok (⟨.INTEGER, .num (digitsToNat ((c :: cs).takeWhile Char.isDigit)), pos⟩,
           (c :: cs).dropWhile Char.isDigit,
           pos + ((c :: cs).takeWhile Char.isDigit).length)
    else if isIdentStart c then
      .ok (⟨.IDENTIFIER, .str ⟨(c :: cs).takeWhile isIdentChar⟩, pos⟩,
           (c :: cs).dropWhile isIdentChar,
           pos + ((c :: cs).takeWhile isIdentChar).length)
    else if c = '+' then .ok (⟨.PLUS, .str "+", pos⟩, cs, pos + 1)
    else if c = '-' then .ok (⟨.MINUS, .str "-", pos⟩, cs, pos + 1)
    else if c = '*' then .ok (⟨.MUL, .str "*", pos⟩, cs, pos + 1)
    else if c = '/' then .ok (⟨.DIV, .str "/", pos⟩, cs, pos + 1)
    else if c = '(' then .ok (⟨.LPAREN, .str "(", pos⟩, cs, pos + 1)
    else if c = ')' then .ok (⟨.RPAREN, .str ")", pos⟩, cs, pos + 1)
    else if c = ',' then .ok (⟨.COMMA, .str ",", pos⟩, cs, pos + 1)
    else .error (.lexInvalidChar pos c)

/-- Binary operators of the AST (ast.ts `"+"|"-"|"*"|"/"`). -/
inductive BinOp
  | add | sub | mul | div
deriving DecidableEq

/-- Unary operators of the AST (ast.ts `"+"|"-"`). -/
inductive UnOp
  | plus | minus
deriving DecidableEq

/-- The AST (ast.ts): integer literal, binary operation, unary operation and
function call with an ordered argument list. -/
inductive ASTNode
  | integer (value : Rat)
  | binaryOp (operator : BinOp) (left right : ASTNode)
  | unaryOp (operator : UnOp) (operand : ASTNode)
  | functionCall (name : String) (args : List ASTNode)

/-- Parser state: the current (one-token lookahead) token and the lexer cursor
(remaining characters and position), mirroring parser.ts `currentToken` plus
the embedded `Lexer`. -/
structure PState where
  cur : Token
  rest : List Char
  pos : Nat
deriving DecidableEq

/-- Parser.eat: on a kind match advance to the next token via the lexer,
otherwise fail with the expected/got/position parse error. -/
def eat (tt : TokenType) (s : PState) : Except EvalError PState :=
  if s.cur.type = tt then
    match getNextToken s.rest s.pos with
    | .ok (t, cs, p) => .ok ⟨t, cs, p⟩
    | .error e => .error e
  else
    .error (.parseError (.expectedToken tt s.cur.type s.cur.position))

/-- The `token.value as number` cast of parser.ts (only reached on INTEGER
tokens, which always carry a numeric payload). -/
def TokenValue.numOf : TokenValue → Nat
  | .num n => n
  | .str _ => 0

/-- The `token.value as string` cast of parser.ts (only reached on IDENTIFIER
tokens, which always carry a string payload). -/
def TokenValue.strOf : TokenValue → String
  | .str s => s
  | .num _ => ""

/-- The mutually recursive procedures of parser.ts, defunctionalised: `expr`,
`term`, `factor`, `functionCall` and `argumentList`, with the while-loops of
`expr`/`term` and the argument loop as separate jobs carrying their
accumulator. -/
inductive PJob
  | expr
  | exprLoop (acc : ASTNode)
  | term
  | termLoop (acc : ASTNode)
  | factor
  | functionCall (name : String)
  | argumentLoop (name : String) (acc : List ASTNode)

/-- The recursive-descent parser of parser.ts.  The fuel only bounds recursion
depth (the source recursion always terminates); `parse` supplies enough fuel,
which `runP_props` proves sufficient. -/
def runP : Nat → PJob → PState → Except EvalError (ASTNode × PState)
  | 0, _, _ => .error .outOfFuel
  | fuel + 1, job, s =>
    match job with
    | .expr => do
        let (n, s1) ← runP fuel .term s
        runP fuel (.exprLoop n) s1
    | .exprLoop acc =>
        if s.cur.type = .PLUS then do
          let s1 ← eat .PLUS s
          let (m, s2) ← runP fuel .term s1
          runP fuel (.exprLoop (.binaryOp .add acc m)) s2
        else if s.cur.type = .MINUS then do
          let s1 ← eat .MINUS s
          let (m, s2) ← runP fuel .term s1
          runP fuel (.exprLoop (.binaryOp .sub acc m)) s2
        else .ok (acc, s)
    | .term => do
        let (n, s1) ← runP fuel .factor s
        runP fuel (.termLoop n) s1
    | .termLoop acc =>
        if s.cur.type = .MUL then do
          let s1 ← eat .MUL s
          let (m, s2) ← runP fuel .factor s1
          runP fuel (.termLoop (.binaryOp .mul acc m)) s2
        else if s.cur.type = .DIV then do
          let s1 ← eat .DIV s
          let (m, s2) ← runP fuel .factor s1
          runP fuel (.termLoop (.binaryOp .div acc m)) s2
        else .ok (acc, s)
    | .factor =>
        if s.cur.type = .PLUS then do
          let s1 ← eat .PLUS s
          let (m, s2) ← runP fuel .factor s1
          .ok (.unaryOp .plus m, s2)
        else if s.cur.type = .MINUS then do
          let s1 ← eat .MINUS s
          let (m, s2) ← runP fuel .factor s1
          .ok (.unaryOp .minus m, s2)
        else if s.cur.type = .INTEGER then do
          let s1 ← eat .INTEGER s
          .ok (.integer (s.cur.val.numOf : Rat), s1)
        else if s.cur.type = .IDENTIFIER then do
          let s1 ← eat .IDENTIFIER s
          if s1.cur.type = .LPAREN then
            runP fuel (.functionCall s.cur.val.strOf) s1
          else
            .error (.parseError (.bareIdentifier s.cur.position s.cur.val.strOf))
        else if s.cur.type = .LPAREN then do
          let s1 ← eat .LPAREN s
          let (n, s2) ← runP fuel .expr s1
          let s3 ← eat .RPAREN s2
          .ok (n, s3)
        else .error (.parseError (.unexpectedToken s.cur.position s.cur.type))
    | .functionCall name => do
        let s1 ← eat .LPAREN s
        if s1.cur.type = .RPAREN then do
          let s2 ← eat .RPAREN s1
          .ok (.functionCall name [], s2)
        else
          runP fuel (.argumentLoop name []) s1
    | .argumentLoop name acc => do
        let (n, s1) ← runP fuel .expr s
        if s1.cur.type = .COMMA then do
          let s2 ← eat .COMMA s1
          runP fuel (.argumentLoop name (acc ++ [n])) s2
        else do
          let s2 ← eat .RPAREN s1
          .ok (.functionCall name (acc ++ [n]), s2)

/-- Number of non-whitespace characters; the parser's recursion depth is
bounded linearly in it. -/
def nonWsLen (cs : List Char) : Nat :=
  (cs.filter (fun c => !jsWhitespace c)).length

/-- Fuel supplied by `parse`; proved sufficient by `runP_props`. -/
def parseFuel (s : String) : Nat :=
  4 * nonWsLen s.data + 8

/-- Reading the first token and parsing one expression: the body of
Parser.parse before the trailing-EOF check. -/
def exprRoot (s : String) : Except EvalError (ASTNode × PState) :=
  match getNextToken s.data 0 with
  | .error e => .error e
  | .ok (t, cs, p) => runP (parseFuel s) .expr ⟨t, cs, p⟩

/-- Parser.parse: parse one expression, then require the next token to be EOF;
otherwise fail with the unexpected-token parse error. -/
def parse (s : String) : Except EvalError ASTNode :=
  match exprRoot s with
  | .error e => .error e
  | .ok (ast, s1) =>
    if s1.cur.type = .EOF then .ok ast
    else .error (.parseError (.unexpectedToken s1.cur.position s1.cur.type))

/-- evaluator.ts `FunctionRegistry`: a mapping from names to variadic numeric
functions that may fail (a thrown error is modelled by its message). -/
def FunctionRegistry : Type :=
  String → Option (List Rat → Except String Rat)

/-- The default registry of the Evaluator constructor: empty. -/
def emptyRegistry : FunctionRegistry := fun _ => none

mutual
/-- Evaluator.evaluate / evaluateInteger / evaluateBinaryOp / evaluateUnaryOp /
evaluateFunctionCall, walking the AST recursively. -/
def evaluateNode (fns : FunctionRegistry) : ASTNode → Except EvalError Rat
  | .integer v => .ok v
  | .binaryOp op l r => do
      let lv ← evaluateNode fns l
      let rv ← evaluateNode fns r
      match op with
      | .add => .ok (lv + rv)
      | .sub => .ok (lv - rv)
      | .mul => .ok (lv * rv)
      | .div => if rv = 0 then .error .divisionByZero else .ok (lv / rv)
  | .unaryOp op x => do
      let v ← evaluateNode fns x
      match op with
      | .plus => .ok v
      | .minus => .ok (-v)
  | .functionCall name args =>
      match fns name with
      | none => .error (.unknownFunction name)
      | some f => do
          let vals ← evaluateArgs fns args
          match f vals with
          | .ok v => .ok v
          | .error cause => .error (.functionInvocation name cause)

/-- `node.arguments.map(arg => this.evaluate(arg))`: evaluate the arguments
left to right, aborting on the first failure. -/
def evaluateArgs (fns : FunctionRegistry) : List ASTNode → Except EvalError (List Rat)
  | [] => .ok []
  | a :: rest => do
      let v ← evaluateNode fns a
      let vs ← evaluateArgs fns rest
      .ok (v :: vs)
end

/-- index.ts `evaluate(expression, functions?)`: parse, then evaluate against
the supplied registry, defaulting to the empty registry when omitted. -/
def evaluate (s : String) (functions : Option FunctionRegistry) : Except EvalError Rat :=
  match parse s with
  | .error e => .error e
  | .ok ast => evaluateNode (functions.getD emptyRegistry) ast


/-- Observable family of a failure: which of the five documented error kinds it
belongs to (`none` for the unreachable fuel artifact). -/
inductive FailureKind
  | lex | parseFail | divByZero | unknownFn | fnInvocation
deriving DecidableEq

/-- Classify an error into its failure family. -/
def EvalError.kind : EvalError → Option FailureKind
  | .lexInvalidChar _ _ => some .lex
  | .parseError _ => some .parseFail
  | .divisionByZero => some .divByZero
  | .unknownFunction _ => some .unknownFn
  | .functionInvocation _ _ => some .fnInvocation
  | .outOfFuel => none

/-- The two jobs embedding while-loops; all other jobs consume at least one
token before returning. -/
def PJob.isLoop : PJob → Bool
  | .exprLoop _ => true
  | .termLoop _ => true
  | _ => false

/-- Tokens still ahead of a parser state: the non-whitespace characters of the
remaining input plus the pending lookahead token.  Every `eat` of a non-EOF
token strictly decreases it. -/
def stateMeasure (s : PState) : Nat :=
  nonWsLen s.rest + (if s.cur.type = .EOF then 0 else 1)

/-- Static recursion-depth allowance of each parser job, used to state fuel
adequacy. -/
def jobCost : PJob → Nat
  | .factor => 1
  | .term => 2
  | .termLoop _ => 2
  | .exprLoop _ => 2
  | .expr => 3
  | .functionCall _ => 3
  | .argumentLoop _ _ => 4

/-- Position-free observation of one lexer output: the token kind and payload,
or a lexing failure marker. -/
inductive Obs
  | tok (ty : TokenType) (v : TokenValue)
  | lexFail
deriving DecidableEq

/-- The first `n` position-stripped tokens readable from a lexer state,
stopping at EOF or at a lexing failure. -/
def obs : Nat → List Char → Nat → List Obs
  | 0, _, _ => []
  | n + 1, cs, pos =>
    match getNextToken cs pos with
    | .error _ => [.lexFail]
    | .ok (t, cs1, pos1) =>
      if t.type = .EOF then [.tok t.type t.val]
      else .tok t.type t.val :: obs n cs1 pos1

/-- The whole position-stripped token stream from a lexer state (each non-EOF
token consumes at least one character, so `length + 1` steps suffice). -/
def streamFrom (cs : List Char) (pos : Nat) : List Obs :=
  obs (cs.length + 1) cs pos

/-- The position-stripped token stream of an input string. -/
def streamOf (s : String) : List Obs :=
  streamFrom s.data 0

/-- Two evaluation results agree: same numeric value, or both are failures. -/
def sameOutcome (x y : Except EvalError Rat) : Prop :=
  (∃ q, x = .ok q ∧ y = .ok q) ∨ ((∃ e, x = .error e) ∧ (∃ e, y = .error e))

/-- A registry with a single function f that always throws, used to exercise
the invocation-failure path. -/
def boomRegistry : FunctionRegistry :=
  fun n => if n = "f" then some (fun _ => .error "boom") else none


/-- Relation between two parser run outcomes used for whitespace invariance:
both fail, or both succeed with the same AST and position-equivalent states. -/
def outRel : Except EvalError (ASTNode × PState) → Except EvalError (ASTNode × PState) → Prop
  | .error _, .error _ => True
  | .ok (n1, u1), .ok (n2, u2) =>
      n1 = n2 ∧ u1.cur.type = u2.cur.type ∧ u1.cur.val = u2.cur.val ∧
      streamFrom u1.rest u1.pos = streamFrom u2.rest u2.pos
  | _, _ => False

/-! ## Lexer lemmas -/

/-- Splitting `nonWsLen` at a cons cell. -/
theorem nonWsLen_cons (c : Char) (cs : List Char) :
    nonWsLen (c :: cs) = (if jsWhitespace c then 0 else 1) + nonWsLen cs := by
  simp only [nonWsLen, List.filter_cons]
  by_cases h : jsWhitespace c
  · simp [h]
  · simp [h]
    omega

/-- `nonWsLen` is monotone along sublists. -/
theorem nonWsLen_sublist {l1 l2 : List Char} (h : l1.Sublist l2) :
    nonWsLen l1 ≤ nonWsLen l2 :=
  (h.filter _).length_le

/-- A successful lexer step only moves forward: the remaining characters are a
suffix-part of the input, strictly fewer (also in non-whitespace count) unless
the emitted token is EOF, in which case the input was exhausted. -/
theorem getNextToken_shrink :
    ∀ (cs : List Char) (pos : Nat) (t : Token) (cs1 : List Char) (pos1 : Nat),
      getNextToken cs pos = .ok (t, cs1, pos1) →
      nonWsLen cs1 ≤ nonWsLen cs ∧ cs1.length ≤ cs.length ∧
      (t.type ≠ .EOF → nonWsLen cs1 < nonWsLen cs ∧ cs1.length < cs.length) ∧
      (t.type = .EOF → cs1 = [] ∧ nonWsLen cs = 0) := by
  intro cs
  induction cs with
  | nil =>
    intro pos t cs1 pos1 h
    simp only [getNextToken, Except.ok.injEq, Prod.mk.injEq] at h
    obtain ⟨ht, hcs, _⟩ := h
    rw [← ht, ← hcs]
    simp [nonWsLen]
  | cons c cs ih =>
    intro pos t cs1 pos1 h
    simp only [getNextToken] at h
    rw [nonWsLen_cons]
    by_cases hws : jsWhitespace c
    · rw [if_pos hws] at h
      rw [if_pos hws]
      obtain ⟨h1, h2, h3, h4⟩ := ih (pos + 1) t cs1 pos1 h
      refine ⟨by omega, by simp; omega, fun hne => ?_, fun hE => ?_⟩
      · obtain ⟨a, b⟩ := h3 hne
        exact ⟨by omega, by simp; omega⟩
      · obtain ⟨a, b⟩ := h4 hE
        exact ⟨a, by omega⟩
    · rw [if_neg hws] at h
      rw [if_neg hws]
      by_cases hd : c.isDigit
      · rw [if_pos hd] at h
        rw [Except.ok.injEq, Prod.mk.injEq, Prod.mk.injEq] at h
        obtain ⟨ht, hcs, _⟩ := h
        have hdw : (c :: cs).dropWhile Char.isDigit = cs.dropWhile Char.isDigit := by
          rw [List.dropWhile_cons, if_pos hd]
        rw [← hcs, hdw]
        have hsub := List.dropWhile_sublist (l := cs) Char.isDigit
        have q1 : nonWsLen (cs.dropWhile Char.isDigit) ≤ nonWsLen cs :=
          nonWsLen_sublist hsub
        have q2 : (cs.dropWhile Char.isDigit).length ≤ cs.length :=
          hsub.length_le
        refine ⟨by omega, by simp; omega, fun _ => ⟨by omega, by simp; omega⟩,
          fun hE => ?_⟩
        rw [← ht] at hE
        simp at hE
      · rw [if_neg hd] at h
        by_cases hid : isIdentStart c
        · rw [if_pos hid] at h
          rw [Except.ok.injEq, Prod.mk.injEq, Prod.mk.injEq] at h
          obtain ⟨ht, hcs, _⟩ := h
          have hdw : (c :: cs).dropWhile isIdentChar = cs.dropWhile isIdentChar := by
            rw [List.dropWhile_cons, if_pos (by simp [isIdentChar, hid])]
          rw [← hcs, hdw]
          have hsub := List.dropWhile_sublist (l := cs) isIdentChar
          have q1 : nonWsLen (cs.dropWhile isIdentChar) ≤ nonWsLen cs :=
            nonWsLen_sublist hsub
          have q2 : (cs.dropWhile isIdentChar).length ≤ cs.length :=
            hsub.length_le
          refine ⟨by omega, by simp; omega, fun _ => ⟨by omega, by simp; omega⟩,
            fun hE => ?_⟩
          rw [← ht] at hE
          simp at hE
        · rw [if_neg hid] at h
          repeat' split at h
          all_goals
            first
              | (rw [Except.ok.injEq, Prod.mk.injEq, Prod.mk.injEq] at h
                 obtain ⟨ht, hcs, _⟩ := h
                 rw [← hcs]
                 refine ⟨by omega, by simp; try omega, fun _ => ⟨by omega, by simp; try omega⟩,
                   fun hE => ?_⟩
                 rw [← ht] at hE
                 simp at hE)
              | simp at h

/-- The lexer fails only with the invalid-character error. -/
theorem getNextToken_error :
    ∀ (cs : List Char) (pos : Nat) (e : EvalError),
      getNextToken cs pos = .error e → ∃ p c, e = .lexInvalidChar p c := by
  intro cs
  induction cs with
  | nil =>
    intro pos e h
    simp [getNextToken] at h
  | cons c cs ih =>
    intro pos e h
    simp only [getNextToken] at h
    by_cases hws : jsWhitespace c
    · rw [if_pos hws] at h
      exact ih (pos + 1) e h
    · rw [if_neg hws] at h
      repeat' split at h
      all_goals
        first
          | (rw [Except.error.injEq] at h
             exact ⟨pos, c, h.symm⟩)
          | cases h

/-! ## Parser measure lemmas -/

/-- The static depth allowance of every job is positive. -/
theorem jobCost_pos (job : PJob) : 1 ≤ jobCost job := by
  cases job <;> simp [jobCost]

/-- A successful `eat` of a non-EOF token kind confirms the current token kind
and strictly decreases the measure. -/
theorem eat_shrink :
    ∀ (tt : TokenType) (s s' : PState), tt ≠ .EOF → eat tt s = .ok s' →
      s.cur.type = tt ∧ stateMeasure s' < stateMeasure s := by
  intro tt s s' hne h
  unfold eat at h
  by_cases hc : s.cur.type = tt
  · rw [if_pos hc] at h
    refine ⟨hc, ?_⟩
    cases hg : getNextToken s.rest s.pos with
    | error e => rw [hg] at h; cases h
    | ok p =>
      obtain ⟨t, cs, p1⟩ := p
      rw [hg] at h
      rw [Except.ok.injEq] at h
      subst h
      have sh := getNextToken_shrink s.rest s.pos t cs p1 hg
      simp only [stateMeasure, hc]
      rw [if_neg hne]
      by_cases hE : t.type = .EOF
      · rw [if_pos hE]
        have h1 := sh.1
        omega
      · rw [if_neg hE]
        have h1 := (sh.2.2.1 hE).1
        omega
  · rw [if_neg hc] at h
    cases h

/-- `eat` never fails with the fuel artifact. -/
theorem eat_error :
    ∀ (tt : TokenType) (s : PState) (e : EvalError),
      eat tt s = .error e → e ≠ .outOfFuel := by
  intro tt s e h
  unfold eat at h
  by_cases hc : s.cur.type = tt
  · rw [if_pos hc] at h
    cases hg : getNextToken s.rest s.pos with
    | error e1 =>
      rw [hg] at h
      rw [Except.error.injEq] at h
      subst h
      obtain ⟨p, c, he⟩ := getNextToken_error s.rest s.pos e1 hg
      simp [he]
    | ok p =>
      obtain ⟨t, cs, p1⟩ := p
      rw [hg] at h
      cases h
  · rw [if_neg hc] at h
    rw [Except.error.injEq] at h
    subst h
    simp


/-- Combined parser invariants, by induction on fuel: a successful run never
grows the measure (strictly shrinking it except for the loop jobs with zero
iterations), and with fuel at least `4 * measure + jobCost` the fuel artifact
cannot surface. -/
theorem runP_props :
    ∀ (fuel : Nat) (job : PJob) (s : PState),
      (∀ (n : ASTNode) (s' : PState), runP fuel job s = .ok (n, s') →
        stateMeasure s' ≤ stateMeasure s ∧
        (PJob.isLoop job = false → stateMeasure s' < stateMeasure s)) ∧
      (∀ e : EvalError, 4 * stateMeasure s + jobCost job ≤ fuel →
        runP fuel job s = .error e → e ≠ .outOfFuel) := by
  intro fuel
  induction fuel with
  | zero =>
    intro job s
    constructor
    · intro n s' h
      simp only [runP] at h
      cases h
    · intro e hb h
      have := jobCost_pos job
      omega
  | succ fuel ih =>
    intro job s
    cases job with
    | expr =>
    constructor
    · intro n s' h
      simp only [runP] at h
      cases h1 : runP fuel .term s with
      | error e1 =>
        rw [h1] at h
        simp only [bind, Except.bind] at h
        cases h
      | ok p =>
        obtain ⟨n1, s1⟩ := p
        rw [h1] at h
        simp only [bind, Except.bind] at h
        have hA := ((ih .term s).1 n1 s1 h1).2 rfl
        have hB := ((ih (.exprLoop n1) s1).1 n s' h).1
        exact ⟨by omega, fun _ => by omega⟩
    · intro e hb h
      simp only [runP] at h
      cases h1 : runP fuel .term s with
      | error e1 =>
        rw [h1] at h
        simp only [bind, Except.bind] at h
        rw [Except.error.injEq] at h
        subst h
        exact (ih .term s).2 e1 (by simp [jobCost] at hb ⊢; omega) h1
      | ok p =>
        obtain ⟨n1, s1⟩ := p
        rw [h1] at h
        simp only [bind, Except.bind] at h
        have hA := ((ih .term s).1 n1 s1 h1).2 rfl
        exact (ih (.exprLoop n1) s1).2 e (by simp [jobCost] at hb ⊢; omega) h
    | exprLoop acc =>
    constructor
    · intro n s' h
      simp only [runP] at h
      by_cases hP : s.cur.type = .PLUS
      · rw [if_pos hP] at h
        cases h1 : eat .PLUS s with
        | error e1 =>
          rw [h1] at h
          simp only [bind, Except.bind] at h
          cases h
        | ok s1 =>
          rw [h1] at h
          simp only [bind, Except.bind] at h
          cases h2 : runP fuel .term s1 with
          | error e1 =>
            rw [h2] at h
            simp only [bind, Except.bind] at h
            cases h
          | ok p =>
            obtain ⟨m, s2⟩ := p
            rw [h2] at h
            simp only [bind, Except.bind] at h
            have he := (eat_shrink .PLUS s s1 (by decide) h1).2
            have hA := ((ih .term s1).1 m s2 h2).2 rfl
            have hB := ((ih _ s2).1 n s' h).1
            exact ⟨by omega, fun _ => by omega⟩
      · rw [if_neg hP] at h
        by_cases hM : s.cur.type = .MINUS
        · rw [if_pos hM] at h
          cases h1 : eat .MINUS s with
          | error e1 =>
            rw [h1] at h
            simp only [bind, Except.bind] at h
            cases h
          | ok s1 =>
            rw [h1] at h
            simp only [bind, Except.bind] at h
            cases h2 : runP fuel .term s1 with
            | error e1 =>
              rw [h2] at h
              simp only [bind, Except.bind] at h
              cases h
            | ok p =>
              obtain ⟨m, s2⟩ := p
              rw [h2] at h
              simp only [bind, Except.bind] at h
              have he := (eat_shrink .MINUS s s1 (by decide) h1).2
              have hA := ((ih .term s1).1 m s2 h2).2 rfl
              have hB := ((ih _ s2).1 n s' h).1
              exact ⟨by omega, fun _ => by omega⟩
        · rw [if_neg hM] at h
          rw [Except.ok.injEq, Prod.mk.injEq] at h
          obtain ⟨h1', h2'⟩ := h
          rw [← h2']
          exact ⟨le_refl _, fun hL => by simp [PJob.isLoop] at hL⟩
    · intro e hb h
      simp only [runP] at h
      by_cases hP : s.cur.type = .PLUS
      · rw [if_pos hP] at h
        cases h1 : eat .PLUS s with
        | error e1 =>
          rw [h1] at h
          simp only [bind, Except.bind] at h
          rw [Except.error.injEq] at h
          subst h
          exact eat_error _ _ _ h1
        | ok s1 =>
          rw [h1] at h
          simp only [bind, Except.bind] at h
          have he := (eat_shrink .PLUS s s1 (by decide) h1).2
          cases h2 : runP fuel .term s1 with
          | error e1 =>
            rw [h2] at h
            simp only [bind, Except.bind] at h
            rw [Except.error.injEq] at h
            subst h
            exact (ih .term s1).2 e1 (by simp [jobCost] at hb ⊢; omega) h2
          | ok p =>
            obtain ⟨m, s2⟩ := p
            rw [h2] at h
            simp only [bind, Except.bind] at h
            have hA := ((ih .term s1).1 m s2 h2).2 rfl
            exact (ih _ s2).2 e (by simp [jobCost] at hb ⊢; omega) h
      · rw [if_neg hP] at h
        by_cases hM : s.cur.type = .MINUS
        · rw [if_pos hM] at h
          cases h1 : eat .MINUS s with
          | error e1 =>
            rw [h1] at h
            simp only [bind, Except.bind] at h
            rw [Except.error.injEq] at h
            subst h
            exact eat_error _ _ _ h1
          | ok s1 =>
            rw [h1] at h
            simp only [bind, Except.bind] at h
            have he := (eat_shrink .MINUS s s1 (by decide) h1).2
            cases h2 : runP fuel .term s1 with
            | error e1 =>
              rw [h2] at h
              simp only [bind, Except.bind] at h
              rw [Except.error.injEq] at h
              subst h
              exact (ih .term s1).2 e1 (by simp [jobCost] at hb ⊢; omega) h2
            | ok p =>
              obtain ⟨m, s2⟩ := p
              rw [h2] at h
              simp only [bind, Except.bind] at h
              have hA := ((ih .term s1).1 m s2 h2).2 rfl
              exact (ih _ s2).2 e (by simp [jobCost] at hb ⊢; omega) h
        · rw [if_neg hM] at h
          cases h
    | term =>
    constructor
    · intro n s' h
      simp only [runP] at h
      cases h1 : runP fuel .factor s with
      | error e1 =>
        rw [h1] at h
        simp only [bind, Except.bind] at h
        cases h
      | ok p =>
        obtain ⟨n1, s1⟩ := p
        rw [h1] at h
        simp only [bind, Except.bind] at h
        have hA := ((ih .factor s).1 n1 s1 h1).2 rfl
        have hB := ((ih (.termLoop n1) s1).1 n s' h).1
        exact ⟨by omega, fun _ => by omega⟩
    · intro e hb h
      simp only [runP] at h
      cases h1 : runP fuel .factor s with
      | error e1 =>
        rw [h1] at h
        simp only [bind, Except.bind] at h
        rw [Except.error.injEq] at h
        subst h
        exact (ih .factor s).2 e1 (by simp [jobCost] at hb ⊢; omega) h1
      | ok p =>
        obtain ⟨n1, s1⟩ := p
        rw [h1] at h
        simp only [bind, Except.bind] at h
        have hA := ((ih .factor s).1 n1 s1 h1).2 rfl
        exact (ih (.termLoop n1) s1).2 e (by simp [jobCost] at hb ⊢; omega) h
    | termLoop acc =>
    constructor
    · intro n s' h
      simp only [runP] at h
      by_cases hP : s.cur.type = .MUL
      · rw [if_pos hP] at h
        cases h1 : eat .MUL s with
        | error e1 =>
          rw [h1] at h
          simp only [bind, Except.bind] at h
          cases h
        | ok s1 =>
          rw [h1] at h
          simp only [bind, Except.bind] at h
          cases h2 : runP fuel .factor s1 with
          | error e1 =>
            rw [h2] at h
            simp only [bind, Except.bind] at h
            cases h
          | ok p =>
            obtain ⟨m, s2⟩ := p
            rw [h2] at h
            simp only [bind, Except.bind] at h
            have he := (eat_shrink .MUL s s1 (by decide) h1).2
            have hA := ((ih .factor s1).1 m s2 h2).2 rfl
            have hB := ((ih _ s2).1 n s' h).1
            exact ⟨by omega, fun _ => by omega⟩
      · rw [if_neg hP] at h
        by_cases hM : s.cur.type = .DIV
        · rw [if_pos hM] at h
          cases h1 : eat .DIV s with
          | error e1 =>
            rw [h1] at h
            simp only [bind, Except.bind] at h
            cases h
          | ok s1 =>
            rw [h1] at h
            simp only [bind, Except.bind] at h
            cases h2 : runP fuel .factor s1 with
            | error e1 =>
              rw [h2] at h
              simp only [bind, Except.bind] at h
              cases h
            | ok p =>
              obtain ⟨m, s2⟩ := p
              rw [h2] at h
              simp only [bind, Except.bind] at h
              have he := (eat_shrink .DIV s s1 (by decide) h1).2
              have hA := ((ih .factor s1).1 m s2 h2).2 rfl
              have hB := ((ih _ s2).1 n s' h).1
              exact ⟨by omega, fun _ => by omega⟩
        · rw [if_neg hM] at h
          rw [Except.ok.injEq, Prod.mk.injEq] at h
          obtain ⟨h1', h2'⟩ := h
          rw [← h2']
          exact ⟨le_refl _, fun hL => by simp [PJob.isLoop] at hL⟩
    · intro e hb h
      simp only [runP] at h
      by_cases hP : s.cur.type = .MUL
      · rw [if_pos hP] at h
        cases h1 : eat .MUL s with
        | error e1 =>
          rw [h1] at h
          simp only [bind, Except.bind] at h
          rw [Except.error.injEq] at h
          subst h
          exact eat_error _ _ _ h1
        | ok s1 =>
          rw [h1] at h
          simp only [bind, Except.bind] at h
          have he := (eat_shrink .MUL s s1 (by decide) h1).2
          cases h2 : runP fuel .factor s1 with
          | error e1 =>
            rw [h2] at h
            simp only [bind, Except.bind] at h
            rw [Except.error.injEq] at h
            subst h
            exact (ih .factor s1).2 e1 (by simp [jobCost] at hb ⊢; omega) h2
          | ok p =>
            obtain ⟨m, s2⟩ := p
            rw [h2] at h
            simp only [bind, Except.bind] at h
            have hA := ((ih .factor s1).1 m s2 h2).2 rfl
            exact (ih _ s2).2 e (by simp [jobCost] at hb ⊢; omega) h
      · rw [if_neg hP] at h
        by_cases hM : s.cur.type = .DIV
        · rw [if_pos hM] at h
          cases h1 : eat .DIV s with
          | error e1 =>
            rw [h1] at h
            simp only [bind, Except.bind] at h
            rw [Except.error.injEq] at h
            subst h
            exact eat_error _ _ _ h1
          | ok s1 =>
            rw [h1] at h
            simp only [bind, Except.bind] at h
            have he := (eat_shrink .DIV s s1 (by decide) h1).2
            cases h2 : runP fuel .factor s1 with
            | error e1 =>
              rw [h2] at h
              simp only [bind, Except.bind] at h
              rw [Except.error.injEq] at h
              subst h
              exact (ih .factor s1).2 e1 (by simp [jobCost] at hb ⊢; omega) h2
            | ok p =>
              obtain ⟨m, s2⟩ := p
              rw [h2] at h
              simp only [bind, Except.bind] at h
              have hA := ((ih .factor s1).1 m s2 h2).2 rfl
              exact (ih _ s2).2 e (by simp [jobCost] at hb ⊢; omega) h
        · rw [if_neg hM] at h
          cases h
    | factor =>
      constructor
      · intro n s' h
        simp only [runP] at h
        by_cases hP : s.cur.type = .PLUS
        · rw [if_pos hP] at h
          cases h1 : eat .PLUS s with
          | error e1 =>
            rw [h1] at h
            simp only [bind, Except.bind] at h
            cases h
          | ok s1 =>
            rw [h1] at h
            simp only [bind, Except.bind] at h
            cases h2 : runP fuel .factor s1 with
            | error e1 =>
              rw [h2] at h
              simp only [bind, Except.bind] at h
              cases h
            | ok p =>
              obtain ⟨m, s2⟩ := p
              rw [h2] at h
              simp only [bind, Except.bind] at h
              rw [Except.ok.injEq, Prod.mk.injEq] at h
              obtain ⟨h1', h2'⟩ := h
              rw [← h2']
              have he := (eat_shrink .PLUS s s1 (by decide) h1).2
              have hA := ((ih .factor s1).1 m s2 h2).2 rfl
              exact ⟨by omega, fun _ => by omega⟩
        · rw [if_neg hP] at h
          by_cases hM : s.cur.type = .MINUS
          · rw [if_pos hM] at h
            cases h1 : eat .MINUS s with
            | error e1 =>
              rw [h1] at h
              simp only [bind, Except.bind] at h
              cases h
            | ok s1 =>
              rw [h1] at h
              simp only [bind, Except.bind] at h
              cases h2 : runP fuel .factor s1 with
              | error e1 =>
                rw [h2] at h
                simp only [bind, Except.bind] at h
                cases h
              | ok p =>
                obtain ⟨m, s2⟩ := p
                rw [h2] at h
                simp only [bind, Except.bind] at h
                rw [Except.ok.injEq, Prod.mk.injEq] at h
                obtain ⟨h1', h2'⟩ := h
                rw [← h2']
                have he := (eat_shrink .MINUS s s1 (by decide) h1).2
                have hA := ((ih .factor s1).1 m s2 h2).2 rfl
                exact ⟨by omega, fun _ => by omega⟩
          · rw [if_neg hM] at h
            by_cases hI : s.cur.type = .INTEGER
            · rw [if_pos hI] at h
              cases h1 : eat .INTEGER s with
              | error e1 =>
                rw [h1] at h
                simp only [bind, Except.bind] at h
                cases h
              | ok s1 =>
                rw [h1] at h
                simp only [bind, Except.bind] at h
                rw [Except.ok.injEq, Prod.mk.injEq] at h
                obtain ⟨h1', h2'⟩ := h
                rw [← h2']
                have he := (eat_shrink .INTEGER s s1 (by decide) h1).2
                exact ⟨by omega, fun _ => by omega⟩
            · rw [if_neg hI] at h
              by_cases hD : s.cur.type = .IDENTIFIER
              · rw [if_pos hD] at h
                cases h1 : eat .IDENTIFIER s with
                | error e1 =>
                  rw [h1] at h
                  simp only [bind, Except.bind] at h
                  cases h
                | ok s1 =>
                  rw [h1] at h
                  simp only [bind, Except.bind] at h
                  have he := (eat_shrink .IDENTIFIER s s1 (by decide) h1).2
                  by_cases hL : s1.cur.type = .LPAREN
                  · rw [if_pos hL] at h
                    have hB := ((ih (.functionCall s.cur.val.strOf) s1).1 n s' h).2 rfl
                    exact ⟨by omega, fun _ => by omega⟩
                  · rw [if_neg hL] at h
                    cases h
              · rw [if_neg hD] at h
                by_cases hL : s.cur.type = .LPAREN
                · rw [if_pos hL] at h
                  cases h1 : eat .LPAREN s with
                  | error e1 =>
                    rw [h1] at h
                    simp only [bind, Except.bind] at h
                    cases h
                  | ok s1 =>
                    rw [h1] at h
                    simp only [bind, Except.bind] at h
                    cases h2 : runP fuel .expr s1 with
                    | error e1 =>
                      rw [h2] at h
                      simp only [bind, Except.bind] at h
                      cases h
                    | ok p =>
                      obtain ⟨m, s2⟩ := p
                      rw [h2] at h
                      simp only [bind, Except.bind] at h
                      cases h3 : eat .RPAREN s2 with
                      | error e1 =>
                        rw [h3] at h
                        simp only [bind, Except.bind] at h
                        cases h
                      | ok s3 =>
                        rw [h3] at h
                        simp only [bind, Except.bind] at h
                        rw [Except.ok.injEq, Prod.mk.injEq] at h
                        obtain ⟨h1', h2'⟩ := h
                        rw [← h2']
                        have he := (eat_shrink .LPAREN s s1 (by decide) h1).2
                        have hA := ((ih .expr s1).1 m s2 h2).2 rfl
                        have hr := (eat_shrink .RPAREN s2 s3 (by decide) h3).2
                        exact ⟨by omega, fun _ => by omega⟩
                · rw [if_neg hL] at h
                  cases h
      · intro e hb h
        simp only [runP] at h
        by_cases hP : s.cur.type = .PLUS
        · rw [if_pos hP] at h
          cases h1 : eat .PLUS s with
          | error e1 =>
            rw [h1] at h
            simp only [bind, Except.bind] at h
            rw [Except.error.injEq] at h
            subst h
            exact eat_error _ _ _ h1
          | ok s1 =>
            rw [h1] at h
            simp only [bind, Except.bind] at h
            have he := (eat_shrink .PLUS s s1 (by decide) h1).2
            cases h2 : runP fuel .factor s1 with
            | error e1 =>
              rw [h2] at h
              simp only [bind, Except.bind] at h
              rw [Except.error.injEq] at h
              subst h
              exact (ih .factor s1).2 e1 (by simp [jobCost] at hb ⊢; omega) h2
            | ok p =>
              obtain ⟨m, s2⟩ := p
              rw [h2] at h
              simp only [bind, Except.bind] at h
              cases h
        · rw [if_neg hP] at h
          by_cases hM : s.cur.type = .MINUS
          · rw [if_pos hM] at h
            cases h1 : eat .MINUS s with
            | error e1 =>
              rw [h1] at h
              simp only [bind, Except.bind] at h
              rw [Except.error.injEq] at h
              subst h
              exact eat_error _ _ _ h1
            | ok s1 =>
              rw [h1] at h
              simp only [bind, Except.bind] at h
              have he := (eat_shrink .MINUS s s1 (by decide) h1).2
              cases h2 : runP fuel .factor s1 with
              | error e1 =>
                rw [h2] at h
                simp only [bind, Except.bind] at h
                rw [Except.error.injEq] at h
                subst h
                exact (ih .factor s1).2 e1 (by simp [jobCost] at hb ⊢; omega) h2
              | ok p =>
                obtain ⟨m, s2⟩ := p
                rw [h2] at h
                simp only [bind, Except.bind] at h
                cases h
          · rw [if_neg hM] at h
            by_cases hI : s.cur.type = .INTEGER
            · rw [if_pos hI] at h
              cases h1 : eat .INTEGER s with
              | error e1 =>
                rw [h1] at h
                simp only [bind, Except.bind] at h
                rw [Except.error.injEq] at h
                subst h
                exact eat_error _ _ _ h1
              | ok s1 =>
                rw [h1] at h
                simp only [bind, Except.bind] at h
                cases h
            · rw [if_neg hI] at h
              by_cases hD : s.cur.type = .IDENTIFIER
              · rw [if_pos hD] at h
                cases h1 : eat .IDENTIFIER s with
                | error e1 =>
                  rw [h1] at h
                  simp only [bind, Except.bind] at h
                  rw [Except.error.injEq] at h
                  subst h
                  exact eat_error _ _ _ h1
                | ok s1 =>
                  rw [h1] at h
                  simp only [bind, Except.bind] at h
                  have he := (eat_shrink .IDENTIFIER s s1 (by decide) h1).2
                  by_cases hL : s1.cur.type = .LPAREN
                  · rw [if_pos hL] at h
                    exact (ih (.functionCall s.cur.val.strOf) s1).2 e
                      (by simp [jobCost] at hb ⊢; omega) h
                  · rw [if_neg hL] at h
                    rw [Except.error.injEq] at h
                    subst h
                    simp
              · rw [if_neg hD] at h
                by_cases hL : s.cur.type = .LPAREN
                · rw [if_pos hL] at h
                  cases h1 : eat .LPAREN s with
                  | error e1 =>
                    rw [h1] at h
                    simp only [bind, Except.bind] at h
                    rw [Except.error.injEq] at h
                    subst h
                    exact eat_error _ _ _ h1
                  | ok s1 =>
                    rw [h1] at h
                    simp only [bind, Except.bind] at h
                    have he := (eat_shrink .LPAREN s s1 (by decide) h1).2
                    cases h2 : runP fuel .expr s1 with
                    | error e1 =>
                      rw [h2] at h
                      simp only [bind, Except.bind] at h
                      rw [Except.error.injEq] at h
                      subst h
                      exact (ih .expr s1).2 e1 (by simp [jobCost] at hb ⊢; omega) h2
                    | ok p =>
                      obtain ⟨m, s2⟩ := p
                      rw [h2] at h
                      simp only [bind, Except.bind] at h
                      cases h3 : eat .RPAREN s2 with
                      | error e1 =>
                        rw [h3] at h
                        simp only [bind, Except.bind] at h
                        rw [Except.error.injEq] at h
                        subst h
                        exact eat_error _ _ _ h3
                      | ok s3 =>
                        rw [h3] at h
                        simp only [bind, Except.bind] at h
                        cases h
                · rw [if_neg hL] at h
                  rw [Except.error.injEq] at h
                  subst h
                  simp
    | functionCall name =>
      constructor
      · intro n s' h
        simp only [runP] at h
        cases h1 : eat .LPAREN s with
        | error e1 =>
          rw [h1] at h
          simp only [bind, Except.bind] at h
          cases h
        | ok s1 =>
          rw [h1] at h
          simp only [bind, Except.bind] at h
          have he := (eat_shrink .LPAREN s s1 (by decide) h1).2
          by_cases hR : s1.cur.type = .RPAREN
          · rw [if_pos hR] at h
            cases h2 : eat .RPAREN s1 with
            | error e1 =>
              rw [h2] at h
              simp only [bind, Except.bind] at h
              cases h
            | ok s2 =>
              rw [h2] at h
              simp only [bind, Except.bind] at h
              rw [Except.ok.injEq, Prod.mk.injEq] at h
              obtain ⟨h1', h2'⟩ := h
              rw [← h2']
              have hr := (eat_shrink .RPAREN s1 s2 (by decide) h2).2
              exact ⟨by omega, fun _ => by omega⟩
          · rw [if_neg hR] at h
            have hB := ((ih (.argumentLoop name []) s1).1 n s' h).2 rfl
            exact ⟨by omega, fun _ => by omega⟩
      · intro e hb h
        simp only [runP] at h
        cases h1 : eat .LPAREN s with
        | error e1 =>
          rw [h1] at h
          simp only [bind, Except.bind] at h
          rw [Except.error.injEq] at h
          subst h
          exact eat_error _ _ _ h1
        | ok s1 =>
          rw [h1] at h
          simp only [bind, Except.bind] at h
          have he := (eat_shrink .LPAREN s s1 (by decide) h1).2
          by_cases hR : s1.cur.type = .RPAREN
          · rw [if_pos hR] at h
            cases h2 : eat .RPAREN s1 with
            | error e1 =>
              rw [h2] at h
              simp only [bind, Except.bind] at h
              rw [Except.error.injEq] at h
              subst h
              exact eat_error _ _ _ h2
            | ok s2 =>
              rw [h2] at h
              simp only [bind, Except.bind] at h
              cases h
          · rw [if_neg hR] at h
            exact (ih (.argumentLoop name []) s1).2 e
              (by simp [jobCost] at hb ⊢; omega) h
    | argumentLoop name acc =>
      constructor
      · intro n s' h
        simp only [runP] at h
        cases h1 : runP fuel .expr s with
        | error e1 =>
          rw [h1] at h
          simp only [bind, Except.bind] at h
          cases h
        | ok p =>
          obtain ⟨n1, s1⟩ := p
          rw [h1] at h
          simp only [bind, Except.bind] at h
          have hA := ((ih .expr s).1 n1 s1 h1).2 rfl
          by_cases hC : s1.cur.type = .COMMA
          · rw [if_pos hC] at h
            cases h2 : eat .COMMA s1 with
            | error e1 =>
              rw [h2] at h
              simp only [bind, Except.bind] at h
              cases h
            | ok s2 =>
              rw [h2] at h
              simp only [bind, Except.bind] at h
              have he := (eat_shrink .COMMA s1 s2 (by decide) h2).2
              have hB := ((ih (.argumentLoop name (acc ++ [n1])) s2).1 n s' h).2 rfl
              exact ⟨by omega, fun _ => by omega⟩
          · rw [if_neg hC] at h
            cases h2 : eat .RPAREN s1 with
            | error e1 =>
              rw [h2] at h
              simp only [bind, Except.bind] at h
              cases h
            | ok s2 =>
              rw [h2] at h
              simp only [bind, Except.bind] at h
              rw [Except.ok.injEq, Prod.mk.injEq] at h
              obtain ⟨h1', h2'⟩ := h
              rw [← h2']
              have hr := (eat_shrink .RPAREN s1 s2 (by decide) h2).2
              exact ⟨by omega, fun _ => by omega⟩
      · intro e hb h
        simp only [runP] at h
        cases h1 : runP fuel .expr s with
        | error e1 =>
          rw [h1] at h
          simp only [bind, Except.bind] at h
          rw [Except.error.injEq] at h
          subst h
          exact (ih .expr s).2 e1 (by simp [jobCost] at hb ⊢; omega) h1
        | ok p =>
          obtain ⟨n1, s1⟩ := p
          rw [h1] at h
          simp only [bind, Except.bind] at h
          have hA := ((ih .expr s).1 n1 s1 h1).2 rfl
          by_cases hC : s1.cur.type = .COMMA
          · rw [if_pos hC] at h
            cases h2 : eat .COMMA s1 with
            | error e1 =>
              rw [h2] at h
              simp only [bind, Except.bind] at h
              rw [Except.error.injEq] at h
              subst h
              exact eat_error _ _ _ h2
            | ok s2 =>
              rw [h2] at h
              simp only [bind, Except.bind] at h
              have he := (eat_shrink .COMMA s1 s2 (by decide) h2).2
              exact (ih (.argumentLoop name (acc ++ [n1])) s2).2 e
                (by simp [jobCost] at hb ⊢; omega) h
          · rw [if_neg hC] at h
            cases h2 : eat .RPAREN s1 with
            | error e1 =>
              rw [h2] at h
              simp only [bind, Except.bind] at h
              rw [Except.error.injEq] at h
              subst h
              exact eat_error _ _ _ h2
            | ok s2 =>
              rw [h2] at h
              simp only [bind, Except.bind] at h
              cases h

/-- `obs` does not depend on its step allowance once it exceeds the number of
remaining characters. -/
theorem obs_congr :
    ∀ (n m : Nat) (cs : List Char) (pos : Nat),
      cs.length < n → cs.length < m → obs n cs pos = obs m cs pos := by
  intro n
  induction n with
  | zero =>
    intro m cs pos hn
    omega
  | succ n ihn =>
    intro m cs pos hn hm
    cases m with
    | zero => omega
    | succ m =>
      simp only [obs]
      cases hg : getNextToken cs pos with
      | error e => rfl
      | ok p =>
        obtain ⟨t, cs1, pos1⟩ := p
        dsimp only
        by_cases hE : t.type = .EOF
        · rw [if_pos hE, if_pos hE]
        · rw [if_neg hE, if_neg hE]
          have hlt := ((getNextToken_shrink cs pos t cs1 pos1 hg).2.2.1 hE).2
          exact congrArg _ (ihn m cs1 pos1 (by omega) (by omega))

/-- Two lexer states with equal stripped streams agree on the next lexer step:
both fail, or both produce tokens of equal kind and payload with successor
states again having equal streams. -/
theorem streamFrom_getNextToken :
    ∀ (cs1 : List Char) (pos1 : Nat) (cs2 : List Char) (pos2 : Nat),
      streamFrom cs1 pos1 = streamFrom cs2 pos2 →
      (∃ e1 e2, getNextToken cs1 pos1 = .error e1 ∧ getNextToken cs2 pos2 = .error e2) ∨
      (∃ t1 r1 q1 t2 r2 q2,
        getNextToken cs1 pos1 = .ok (t1, r1, q1) ∧
        getNextToken cs2 pos2 = .ok (t2, r2, q2) ∧
        t1.type = t2.type ∧ t1.val = t2.val ∧
        (t1.type ≠ .EOF → streamFrom r1 q1 = streamFrom r2 q2)) := by
  intro cs1 pos1 cs2 pos2 h
  unfold streamFrom at h
  simp only [obs] at h
  cases hg1 : getNextToken cs1 pos1 with
  | error e1 =>
    cases hg2 : getNextToken cs2 pos2 with
    | error e2 => exact Or.inl ⟨e1, e2, rfl, rfl⟩
    | ok p2 =>
      obtain ⟨t2, r2, q2⟩ := p2
      rw [hg1, hg2] at h
      dsimp only at h
      by_cases hE2 : t2.type = .EOF
      · rw [if_pos hE2] at h
        simp at h
      · rw [if_neg hE2] at h
        simp at h
  | ok p1 =>
    obtain ⟨t1, r1, q1⟩ := p1
    cases hg2 : getNextToken cs2 pos2 with
    | error e2 =>
      rw [hg1, hg2] at h
      dsimp only at h
      by_cases hE1 : t1.type = .EOF
      · rw [if_pos hE1] at h
        simp at h
      · rw [if_neg hE1] at h
        simp at h
    | ok p2 =>
      obtain ⟨t2, r2, q2⟩ := p2
      rw [hg1, hg2] at h
      dsimp only at h
      by_cases hE1 : t1.type = .EOF
      · by_cases hE2 : t2.type = .EOF
        · rw [if_pos hE1, if_pos hE2] at h
          simp only [List.cons.injEq, Obs.tok.injEq] at h
          exact Or.inr ⟨t1, r1, q1, t2, r2, q2, rfl, rfl, h.1.1, h.1.2,
            fun hne => absurd hE1 hne⟩
        · rw [if_pos hE1, if_neg hE2] at h
          simp only [List.cons.injEq, Obs.tok.injEq] at h
          rw [h.1.1] at hE1
          exact absurd hE1 hE2
      · by_cases hE2 : t2.type = .EOF
        · rw [if_neg hE1, if_pos hE2] at h
          simp only [List.cons.injEq, Obs.tok.injEq] at h
          rw [← h.1.1] at hE2
          exact absurd hE2 hE1
        · rw [if_neg hE1, if_neg hE2] at h
          simp only [List.cons.injEq, Obs.tok.injEq] at h
          obtain ⟨⟨hty, hval⟩, htail⟩ := h
          refine Or.inr ⟨t1, r1, q1, t2, r2, q2, rfl, rfl, hty, hval, fun _ => ?_⟩
          have hl1 := ((getNextToken_shrink cs1 pos1 t1 r1 q1 hg1).2.2.1 hE1).2
          have hl2 := ((getNextToken_shrink cs2 pos2 t2 r2 q2 hg2).2.2.1
            (by rw [← hty]; exact hE1)).2
          unfold streamFrom
          rw [obs_congr (r1.length + 1) cs1.length r1 q1 (by omega) (by omega),
              obs_congr (r2.length + 1) cs2.length r2 q2 (by omega) (by omega)]
          exact htail

/-- `eat` on two position-equivalent states: both fail, or both succeed with
position-equivalent successor states. -/
theorem eat_invariance :
    ∀ (tt : TokenType) (s1 s2 : PState),
      s1.cur.type = s2.cur.type → s1.cur.val = s2.cur.val →
      streamFrom s1.rest s1.pos = streamFrom s2.rest s2.pos →
      (∃ e1 e2, eat tt s1 = .error e1 ∧ eat tt s2 = .error e2) ∨
      (∃ u1 u2, eat tt s1 = .ok u1 ∧ eat tt s2 = .ok u2 ∧
        u1.cur.type = u2.cur.type ∧ u1.cur.val = u2.cur.val ∧
        streamFrom u1.rest u1.pos = streamFrom u2.rest u2.pos) := by
  intro tt s1 s2 hty hval hst
  unfold eat
  by_cases hc : s1.cur.type = tt
  · rw [if_pos hc, if_pos (by rw [← hty]; exact hc)]
    rcases streamFrom_getNextToken s1.rest s1.pos s2.rest s2.pos hst with
      ⟨e1, e2, hg1, hg2⟩ | ⟨t1, r1, q1, t2, r2, q2, hg1, hg2, hty2, hval2, hrec⟩
    · rw [hg1, hg2]
      exact Or.inl ⟨e1, e2, rfl, rfl⟩
    · rw [hg1, hg2]
      refine Or.inr ⟨⟨t1, r1, q1⟩, ⟨t2, r2, q2⟩, rfl, rfl, hty2, hval2, ?_⟩
      by_cases hE : t1.type = .EOF
      · have h1 := (getNextToken_shrink _ _ _ _ _ hg1).2.2.2 hE
        have h2 := (getNextToken_shrink _ _ _ _ _ hg2).2.2.2 (by rw [← hty2]; exact hE)
        dsimp only
        rw [h1.1, h2.1]
        rfl
      · exact hrec hE
  · rw [if_neg hc, if_neg (by rw [← hty]; exact hc)]
    exact Or.inl ⟨_, _, rfl, rfl⟩

/-- Parser invariance: running any job with the same fuel from two states that
agree on the current token (kind and payload, not position) and on the
stripped stream of the remaining input produces related outcomes: both fail,
or both succeed with the same AST and again-related states. -/
theorem runP_invariance :
    ∀ (fuel : Nat) (job : PJob) (s1 s2 : PState),
      s1.cur.type = s2.cur.type → s1.cur.val = s2.cur.val →
      streamFrom s1.rest s1.pos = streamFrom s2.rest s2.pos →
      outRel (runP fuel job s1) (runP fuel job s2) := by
  intro fuel
  induction fuel with
  | zero =>
    intro job s1 s2 hty hval hst
    simp only [runP]
    exact trivial
  | succ fuel ih =>
    intro job s1 s2 hty hval hst
    cases job with
    | expr =>
      simp only [runP]
      have Aa := ih .term s1 s2 hty hval hst
      cases h1a : runP fuel .term s1 with
      | error eAa =>
        cases h2a : runP fuel .term s2 with
        | error eBa =>
          exact trivial
        | ok pBa =>
          rw [h1a, h2a] at Aa
          exact (show False from Aa).elim
      | ok pAa =>
        obtain ⟨ma, vAa⟩ := pAa
        cases h2a : runP fuel .term s2 with
        | error eBa =>
          rw [h1a, h2a] at Aa
          exact (show False from Aa).elim
        | ok pBa =>
          obtain ⟨mBa, vBa⟩ := pBa
          rw [h1a, h2a] at Aa
          obtain ⟨hma, htyva, hvalva, hstva⟩ := Aa
          subst hma
          try dsimp only [bind, Except.bind]
          exact ih (.exprLoop ma) vAa vBa htyva hvalva hstva
    | exprLoop acc =>
      simp only [runP]
      by_cases hP : s1.cur.type = .PLUS
      · rw [if_pos hP, if_pos (show s2.cur.type = .PLUS by rw [← hty]; exact hP)]
        rcases eat_invariance .PLUS s1 s2 hty hval hst with
          ⟨eAa, eBa, hgAa, hgBa⟩ | ⟨uAa, uBa, hgAa, hgBa, htya, hvala, hsta⟩
        · rw [hgAa, hgBa]
          exact trivial
        · rw [hgAa, hgBa]
          dsimp only [bind, Except.bind]
          have Aar := ih .term uAa uBa htya hvala hsta
          cases h1ar : runP fuel .term uAa with
          | error eAar =>
            cases h2ar : runP fuel .term uBa with
            | error eBar =>
              exact trivial
            | ok pBar =>
              rw [h1ar, h2ar] at Aar
              exact (show False from Aar).elim
          | ok pAar =>
            obtain ⟨mar, vAar⟩ := pAar
            cases h2ar : runP fuel .term uBa with
            | error eBar =>
              rw [h1ar, h2ar] at Aar
              exact (show False from Aar).elim
            | ok pBar =>
              obtain ⟨mBar, vBar⟩ := pBar
              rw [h1ar, h2ar] at Aar
              obtain ⟨hmar, htyvar, hvalvar, hstvar⟩ := Aar
              subst hmar
              try dsimp only [bind, Except.bind]
              exact ih (.exprLoop (.binaryOp .add acc mar)) vAar vBar htyvar hvalvar hstvar
      · rw [if_neg hP, if_neg (show ¬s2.cur.type = .PLUS by rw [← hty]; exact hP)]
        by_cases hM : s1.cur.type = .MINUS
        · rw [if_pos hM, if_pos (show s2.cur.type = .MINUS by rw [← hty]; exact hM)]
          rcases eat_invariance .MINUS s1 s2 hty hval hst with
            ⟨eAb, eBb, hgAb, hgBb⟩ | ⟨uAb, uBb, hgAb, hgBb, htyb, hvalb, hstb⟩
          · rw [hgAb, hgBb]
            exact trivial
          · rw [hgAb, hgBb]
            dsimp only [bind, Except.bind]
            have Abr := ih .term uAb uBb htyb hvalb hstb
            cases h1br : runP fuel .term uAb with
            | error eAbr =>
              cases h2br : runP fuel .term uBb with
              | error eBbr =>
                exact trivial
              | ok pBbr =>
                rw [h1br, h2br] at Abr
                exact (show False from Abr).elim
            | ok pAbr =>
              obtain ⟨mbr, vAbr⟩ := pAbr
              cases h2br : runP fuel .term uBb with
              | error eBbr =>
                rw [h1br, h2br] at Abr
                exact (show False from Abr).elim
              | ok pBbr =>
                obtain ⟨mBbr, vBbr⟩ := pBbr
                rw [h1br, h2br] at Abr
                obtain ⟨hmbr, htyvbr, hvalvbr, hstvbr⟩ := Abr
                subst hmbr
                try dsimp only [bind, Except.bind]
                exact ih (.exprLoop (.binaryOp .sub acc mbr)) vAbr vBbr htyvbr hvalvbr hstvbr
        · rw [if_neg hM, if_neg (show ¬s2.cur.type = .MINUS by rw [← hty]; exact hM)]
          exact ⟨rfl, hty, hval, hst⟩
    | term =>
      simp only [runP]
      have Aa := ih .factor s1 s2 hty hval hst
      cases h1a : runP fuel .factor s1 with
      | error eAa =>
        cases h2a : runP fuel .factor s2 with
        | error eBa =>
          exact trivial
        | ok pBa =>
          rw [h1a, h2a] at Aa
          exact (show False from Aa).elim
      | ok pAa =>
        obtain ⟨ma, vAa⟩ := pAa
        cases h2a : runP fuel .factor s2 with
        | error eBa =>
          rw [h1a, h2a] at Aa
          exact (show False from Aa).elim
        | ok pBa =>
          obtain ⟨mBa, vBa⟩ := pBa
          rw [h1a, h2a] at Aa
          obtain ⟨hma, htyva, hvalva, hstva⟩ := Aa
          subst hma
          try dsimp only [bind, Except.bind]
          exact ih (.termLoop ma) vAa vBa htyva hvalva hstva
    | termLoop acc =>
      simp only [runP]
      by_cases hP : s1.cur.type = .MUL
      · rw [if_pos hP, if_pos (show s2.cur.type = .MUL by rw [← hty]; exact hP)]
        rcases eat_invariance .MUL s1 s2 hty hval hst with
          ⟨eAa, eBa, hgAa, hgBa⟩ | ⟨uAa, uBa, hgAa, hgBa, htya, hvala, hsta⟩
        · rw [hgAa, hgBa]
          exact trivial
        · rw [hgAa, hgBa]
          dsimp only [bind, Except.bind]
          have Aar := ih .factor uAa uBa htya hvala hsta
          cases h1ar : runP fuel .factor uAa with
          | error eAar =>
            cases h2ar : runP fuel .factor uBa with
            | error eBar =>
              exact trivial
            | ok pBar =>
              rw [h1ar, h2ar] at Aar
              exact (show False from Aar).elim
          | ok pAar =>
            obtain ⟨mar, vAar⟩ := pAar
            cases h2ar : runP fuel .factor uBa with
            | error eBar =>
              rw [h1ar, h2ar] at Aar
              exact (show False from Aar).elim
            | ok pBar =>
              obtain ⟨mBar, vBar⟩ := pBar
              rw [h1ar, h2ar] at Aar
              obtain ⟨hmar, htyvar, hvalvar, hstvar⟩ := Aar
              subst hmar
              try dsimp only [bind, Except.bind]
              exact ih (.termLoop (.binaryOp .mul acc mar)) vAar vBar htyvar hvalvar hstvar
      · rw [if_neg hP, if_neg (show ¬s2.cur.type = .MUL by rw [← hty]; exact hP)]
        by_cases hM : s1.cur.type = .DIV
        · rw [if_pos hM, if_pos (show s2.cur.type = .DIV by rw [← hty]; exact hM)]
          rcases eat_invariance .DIV s1 s2 hty hval hst with
            ⟨eAb, eBb, hgAb, hgBb⟩ | ⟨uAb, uBb, hgAb, hgBb, htyb, hvalb, hstb⟩
          · rw [hgAb, hgBb]
            exact trivial
          · rw [hgAb, hgBb]
            dsimp only [bind, Except.bind]
            have Abr := ih .factor uAb uBb htyb hvalb hstb
            cases h1br : runP fuel .factor uAb with
            | error eAbr =>
              cases h2br : runP fuel .factor uBb with
              | error eBbr =>
                exact trivial
              | ok pBbr =>
                rw [h1br, h2br] at Abr
                exact (show False from Abr).elim
            | ok pAbr =>
              obtain ⟨mbr, vAbr⟩ := pAbr
              cases h2br : runP fuel .factor uBb with
              | error eBbr =>
                rw [h1br, h2br] at Abr
                exact (show False from Abr).elim
              | ok pBbr =>
                obtain ⟨mBbr, vBbr⟩ := pBbr
                rw [h1br, h2br] at Abr
                obtain ⟨hmbr, htyvbr, hvalvbr, hstvbr⟩ := Abr
                subst hmbr
                try dsimp only [bind, Except.bind]
                exact ih (.termLoop (.binaryOp .div acc mbr)) vAbr vBbr htyvbr hvalvbr hstvbr
        · rw [if_neg hM, if_neg (show ¬s2.cur.type = .DIV by rw [← hty]; exact hM)]
          exact ⟨rfl, hty, hval, hst⟩
    | factor =>
      simp only [runP]
      by_cases hP : s1.cur.type = .PLUS
      · rw [if_pos hP, if_pos (show s2.cur.type = .PLUS by rw [← hty]; exact hP)]
        rcases eat_invariance .PLUS s1 s2 hty hval hst with
          ⟨eAp, eBp, hgAp, hgBp⟩ | ⟨uAp, uBp, hgAp, hgBp, htyp, hvalp, hstp⟩
        · rw [hgAp, hgBp]
          exact trivial
        · rw [hgAp, hgBp]
          dsimp only [bind, Except.bind]
          have Arp := ih .factor uAp uBp htyp hvalp hstp
          cases h1rp : runP fuel .factor uAp with
          | error eArp =>
            cases h2rp : runP fuel .factor uBp with
            | error eBrp =>
              exact trivial
            | ok pBrp =>
              rw [h1rp, h2rp] at Arp
              exact (show False from Arp).elim
          | ok pArp =>
            obtain ⟨mrp, vArp⟩ := pArp
            cases h2rp : runP fuel .factor uBp with
            | error eBrp =>
              rw [h1rp, h2rp] at Arp
              exact (show False from Arp).elim
            | ok pBrp =>
              obtain ⟨mBrp, vBrp⟩ := pBrp
              rw [h1rp, h2rp] at Arp
              obtain ⟨hmrp, htyvrp, hvalvrp, hstvrp⟩ := Arp
              subst hmrp
              try dsimp only [bind, Except.bind]
              exact ⟨rfl, htyvrp, hvalvrp, hstvrp⟩
      · rw [if_neg hP, if_neg (show ¬s2.cur.type = .PLUS by rw [← hty]; exact hP)]
        by_cases hM : s1.cur.type = .MINUS
        · rw [if_pos hM, if_pos (show s2.cur.type = .MINUS by rw [← hty]; exact hM)]
          rcases eat_invariance .MINUS s1 s2 hty hval hst with
            ⟨eAm, eBm, hgAm, hgBm⟩ | ⟨uAm, uBm, hgAm, hgBm, htym, hvalm, hstm⟩
          · rw [hgAm, hgBm]
            exact trivial
          · rw [hgAm, hgBm]
            dsimp only [bind, Except.bind]
            have Arm := ih .factor uAm uBm htym hvalm hstm
            cases h1rm : runP fuel .factor uAm with
            | error eArm =>
              cases h2rm : runP fuel .factor uBm with
              | error eBrm =>
                exact trivial
              | ok pBrm =>
                rw [h1rm, h2rm] at Arm
                exact (show False from Arm).elim
            | ok pArm =>
              obtain ⟨mrm, vArm⟩ := pArm
              cases h2rm : runP fuel .factor uBm with
              | error eBrm =>
                rw [h1rm, h2rm] at Arm
                exact (show False from Arm).elim
              | ok pBrm =>
                obtain ⟨mBrm, vBrm⟩ := pBrm
                rw [h1rm, h2rm] at Arm
                obtain ⟨hmrm, htyvrm, hvalvrm, hstvrm⟩ := Arm
                subst hmrm
                try dsimp only [bind, Except.bind]
                exact ⟨rfl, htyvrm, hvalvrm, hstvrm⟩
        · rw [if_neg hM, if_neg (show ¬s2.cur.type = .MINUS by rw [← hty]; exact hM)]
          by_cases hI : s1.cur.type = .INTEGER
          · rw [if_pos hI, if_pos (show s2.cur.type = .INTEGER by rw [← hty]; exact hI)]
            rcases eat_invariance .INTEGER s1 s2 hty hval hst with
              ⟨eAi, eBi, hgAi, hgBi⟩ | ⟨uAi, uBi, hgAi, hgBi, htyi, hvali, hsti⟩
            · rw [hgAi, hgBi]
              exact trivial
            · rw [hgAi, hgBi]
              dsimp only [bind, Except.bind]
              rw [hval]
              exact ⟨rfl, htyi, hvali, hsti⟩
          · rw [if_neg hI, if_neg (show ¬s2.cur.type = .INTEGER by rw [← hty]; exact hI)]
            by_cases hD : s1.cur.type = .IDENTIFIER
            · rw [if_pos hD, if_pos (show s2.cur.type = .IDENTIFIER by rw [← hty]; exact hD)]
              rcases eat_invariance .IDENTIFIER s1 s2 hty hval hst with
                ⟨eAd, eBd, hgAd, hgBd⟩ | ⟨uAd, uBd, hgAd, hgBd, htyd, hvald, hstd⟩
              · rw [hgAd, hgBd]
                exact trivial
              · rw [hgAd, hgBd]
                dsimp only [bind, Except.bind]
                by_cases hLp : uAd.cur.type = .LPAREN
                · rw [if_pos hLp, if_pos (show uBd.cur.type = .LPAREN by rw [← htyd]; exact hLp)]
                  rw [hval]
                  exact ih (.functionCall s2.cur.val.strOf) uAd uBd htyd hvald hstd
                · rw [if_neg hLp, if_neg (show ¬uBd.cur.type = .LPAREN by rw [← htyd]; exact hLp)]
                  exact trivial
            · rw [if_neg hD, if_neg (show ¬s2.cur.type = .IDENTIFIER by rw [← hty]; exact hD)]
              by_cases hL : s1.cur.type = .LPAREN
              · rw [if_pos hL, if_pos (show s2.cur.type = .LPAREN by rw [← hty]; exact hL)]
                rcases eat_invariance .LPAREN s1 s2 hty hval hst with
                  ⟨eAl, eBl, hgAl, hgBl⟩ | ⟨uAl, uBl, hgAl, hgBl, htyl, hvall, hstl⟩
                · rw [hgAl, hgBl]
                  exact trivial
                · rw [hgAl, hgBl]
                  dsimp only [bind, Except.bind]
                  have Ape := ih .expr uAl uBl htyl hvall hstl
                  cases h1pe : runP fuel .expr uAl with
                  | error eApe =>
                    cases h2pe : runP fuel .expr uBl with
                    | error eBpe =>
                      exact trivial
                    | ok pBpe =>
                      rw [h1pe, h2pe] at Ape
                      exact (show False from Ape).elim
                  | ok pApe =>
                    obtain ⟨mpe, vApe⟩ := pApe
                    cases h2pe : runP fuel .expr uBl with
                    | error eBpe =>
                      rw [h1pe, h2pe] at Ape
                      exact (show False from Ape).elim
                    | ok pBpe =>
                      obtain ⟨mBpe, vBpe⟩ := pBpe
                      rw [h1pe, h2pe] at Ape
                      obtain ⟨hmpe, htyvpe, hvalvpe, hstvpe⟩ := Ape
                      subst hmpe
                      try dsimp only [bind, Except.bind]
                      rcases eat_invariance .RPAREN vApe vBpe htyvpe hvalvpe hstvpe with
                        ⟨eArp, eBrp, hgArp, hgBrp⟩ | ⟨uArp, uBrp, hgArp, hgBrp, htyrp, hvalrp, hstrp⟩
                      · rw [hgArp, hgBrp]
                        exact trivial
                      · rw [hgArp, hgBrp]
                        dsimp only [bind, Except.bind]
                        exact ⟨rfl, htyrp, hvalrp, hstrp⟩
              · rw [if_neg hL, if_neg (show ¬s2.cur.type = .LPAREN by rw [← hty]; exact hL)]
                exact trivial
    | functionCall name =>
      simp only [runP]
      rcases eat_invariance .LPAREN s1 s2 hty hval hst with
        ⟨eAf, eBf, hgAf, hgBf⟩ | ⟨uAf, uBf, hgAf, hgBf, htyf, hvalf, hstf⟩
      · rw [hgAf, hgBf]
        exact trivial
      · rw [hgAf, hgBf]
        dsimp only [bind, Except.bind]
        by_cases hR : uAf.cur.type = .RPAREN
        · rw [if_pos hR, if_pos (show uBf.cur.type = .RPAREN by rw [← htyf]; exact hR)]
          rcases eat_invariance .RPAREN uAf uBf htyf hvalf hstf with
            ⟨eAr, eBr, hgAr, hgBr⟩ | ⟨uAr, uBr, hgAr, hgBr, htyr, hvalr, hstr⟩
          · rw [hgAr, hgBr]
            exact trivial
          · rw [hgAr, hgBr]
            dsimp only [bind, Except.bind]
            exact ⟨rfl, htyr, hvalr, hstr⟩
        · rw [if_neg hR, if_neg (show ¬uBf.cur.type = .RPAREN by rw [← htyf]; exact hR)]
          exact ih (.argumentLoop name []) uAf uBf htyf hvalf hstf
    | argumentLoop name acc =>
      simp only [runP]
      have Ag := ih .expr s1 s2 hty hval hst
      cases h1g : runP fuel .expr s1 with
      | error eAg =>
        cases h2g : runP fuel .expr s2 with
        | error eBg =>
          exact trivial
        | ok pBg =>
          rw [h1g, h2g] at Ag
          exact (show False from Ag).elim
      | ok pAg =>
        obtain ⟨mg, vAg⟩ := pAg
        cases h2g : runP fuel .expr s2 with
        | error eBg =>
          rw [h1g, h2g] at Ag
          exact (show False from Ag).elim
        | ok pBg =>
          obtain ⟨mBg, vBg⟩ := pBg
          rw [h1g, h2g] at Ag
          obtain ⟨hmg, htyvg, hvalvg, hstvg⟩ := Ag
          subst hmg
          try dsimp only [bind, Except.bind]
          by_cases hC : vAg.cur.type = .COMMA
          · rw [if_pos hC, if_pos (show vBg.cur.type = .COMMA by rw [← htyvg]; exact hC)]
            rcases eat_invariance .COMMA vAg vBg htyvg hvalvg hstvg with
              ⟨eAc, eBc, hgAc, hgBc⟩ | ⟨uAc, uBc, hgAc, hgBc, htyc, hvalc, hstc⟩
            · rw [hgAc, hgBc]
              exact trivial
            · rw [hgAc, hgBc]
              dsimp only [bind, Except.bind]
              exact ih (.argumentLoop name (acc ++ [mg])) uAc uBc htyc hvalc hstc
          · rw [if_neg hC, if_neg (show ¬vBg.cur.type = .COMMA by rw [← htyvg]; exact hC)]
            rcases eat_invariance .RPAREN vAg vBg htyvg hvalvg hstvg with
              ⟨eAq, eBq, hgAq, hgBq⟩ | ⟨uAq, uBq, hgAq, hgBq, htyq, hvalq, hstq⟩
            · rw [hgAq, hgBq]
              exact trivial
            · rw [hgAq, hgBq]
              dsimp only [bind, Except.bind]
              exact ⟨rfl, htyq, hvalq, hstq⟩

/-! ## Basic evaluator lemmas -/

/-- Unary plus evaluates to its operand's value unchanged. -/
theorem evaluateNode_unaryPlus (fns : FunctionRegistry) (x : ASTNode) :
    evaluateNode fns (.unaryOp .plus x) = evaluateNode fns x := by
  cases h : evaluateNode fns x <;> simp [evaluateNode, h, bind, Except.bind]

/-- Unary minus negates its operand's value, propagating failure. -/
theorem evaluateNode_unaryMinus (fns : FunctionRegistry) (x : ASTNode) :
    evaluateNode fns (.unaryOp .minus x) = (evaluateNode fns x).map (fun v => -v) := by
  cases h : evaluateNode fns x <;> simp [evaluateNode, h, bind, Except.bind, Except.map]

/-- The evaluator never produces the fuel artifact (its failures are division
by zero, unknown function, invocation failure, or a propagated failure). -/
theorem eval_no_fuel :
    ∀ (k : Nat),
      (∀ (fns : FunctionRegistry) (node : ASTNode) (e : EvalError),
        sizeOf node < k → evaluateNode fns node = .error e → e ≠ .outOfFuel) ∧
      (∀ (fns : FunctionRegistry) (args : List ASTNode) (e : EvalError),
        sizeOf args < k → evaluateArgs fns args = .error e → e ≠ .outOfFuel) := by
  intro k
  induction k with
  | zero =>
    constructor
    · intro fns node e hk
      omega
    · intro fns args e hk
      omega
  | succ k ih =>
    constructor
    · intro fns node e hk h
      cases node with
      | integer v => simp [evaluateNode] at h
      | binaryOp op l r =>
        simp only [evaluateNode] at h
        cases h1 : evaluateNode fns l with
        | error e1 =>
          rw [h1] at h
          simp only [bind, Except.bind] at h
          rw [Except.error.injEq] at h
          subst h
          exact ih.1 fns l e1 (by simp at hk ⊢; omega) h1
        | ok lv =>
          rw [h1] at h
          simp only [bind, Except.bind] at h
          cases h2 : evaluateNode fns r with
          | error e1 =>
            rw [h2] at h
            simp only [bind, Except.bind] at h
            rw [Except.error.injEq] at h
            subst h
            exact ih.1 fns r e1 (by simp at hk ⊢; omega) h2
          | ok rv =>
            rw [h2] at h
            simp only [bind, Except.bind] at h
            cases op with
            | add => cases h
            | sub => cases h
            | mul => cases h
            | div =>
              by_cases hz : rv = 0
              · rw [if_pos hz] at h
                rw [Except.error.injEq] at h
                subst h
                simp
              · rw [if_neg hz] at h
                cases h
      | unaryOp op x =>
        simp only [evaluateNode] at h
        cases h1 : evaluateNode fns x with
        | error e1 =>
          rw [h1] at h
          simp only [bind, Except.bind] at h
          rw [Except.error.injEq] at h
          subst h
          exact ih.1 fns x e1 (by simp at hk ⊢; omega) h1
        | ok v =>
          rw [h1] at h
          simp only [bind, Except.bind] at h
          cases op <;> cases h
      | functionCall name args =>
        simp only [evaluateNode] at h
        cases hf : fns name with
        | none =>
          rw [hf] at h
          rw [Except.error.injEq] at h
          subst h
          simp
        | some f =>
          rw [hf] at h
          simp only [bind, Except.bind] at h
          cases h1 : evaluateArgs fns args with
          | error e1 =>
            rw [h1] at h
            simp only [bind, Except.bind] at h
            rw [Except.error.injEq] at h
            subst h
            exact ih.2 fns args e1 (by simp at hk ⊢; omega) h1
          | ok vals =>
            rw [h1] at h
            simp only [bind, Except.bind] at h
            cases h2 : f vals with
            | ok v => rw [h2] at h; cases h
            | error cause =>
              rw [h2] at h
              rw [Except.error.injEq] at h
              subst h
              simp
    · intro fns args e hk h
      cases args with
      | nil => simp [evaluateArgs] at h
      | cons a rest =>
        simp only [evaluateArgs] at h
        cases h1 : evaluateNode fns a with
        | error e1 =>
          rw [h1] at h
          simp only [bind, Except.bind] at h
          rw [Except.error.injEq] at h
          subst h
          exact ih.1 fns a e1 (by simp at hk ⊢; omega) h1
        | ok v =>
          rw [h1] at h
          simp only [bind, Except.bind] at h
          cases h2 : evaluateArgs fns rest with
          | error e1 =>
            rw [h2] at h
            simp only [bind, Except.bind] at h
            rw [Except.error.injEq] at h
            subst h
            exact ih.2 fns rest e1 (by simp at hk ⊢; omega) h2
          | ok vs =>
            rw [h2] at h
            simp only [bind, Except.bind] at h
            cases h

/-- parse never surfaces the fuel artifact: the fuel supplied by `parseFuel`
is adequate. -/
theorem parse_no_fuel :
    ∀ (s : String) (e : EvalError), parse s = .error e → e ≠ .outOfFuel := by
  intro s e h
  unfold parse at h
  unfold exprRoot at h
  cases hg : getNextToken s.data 0 with
  | error e1 =>
    rw [hg] at h
    rw [Except.error.injEq] at h
    subst h
    obtain ⟨p, c, he⟩ := getNextToken_error s.data 0 e1 hg
    simp [he]
  | ok p =>
    obtain ⟨t, cs, p1⟩ := p
    rw [hg] at h
    dsimp only at h
    cases hr : runP (parseFuel s) .expr ⟨t, cs, p1⟩ with
    | error e1 =>
      rw [hr] at h
      rw [Except.error.injEq] at h
      subst h
      refine (runP_props (parseFuel s) .expr ⟨t, cs, p1⟩).2 e1 ?_ hr
      have sh := getNextToken_shrink s.data 0 t cs p1 hg
      have hm : stateMeasure ⟨t, cs, p1⟩ ≤ nonWsLen s.data := by
        simp only [stateMeasure]
        by_cases hE : t.type = .EOF
        · rw [if_pos hE]
          have := sh.1
          omega
        · rw [if_neg hE]
          have := (sh.2.2.1 hE).1
          omega
      simp only [parseFuel, jobCost]
      omega
    | ok q =>
      obtain ⟨ast, s1⟩ := q
      rw [hr] at h
      dsimp only at h
      by_cases hE : s1.cur.type = .EOF
      · rw [if_pos hE] at h
        cases h
      · rw [if_neg hE] at h
        rw [Except.error.injEq] at h
        subst h
        simp

/-- C8: every failure of the pipeline surfaces as one of the five documented,
mutually distinct failure kinds (lex, parse, division-by-zero, unknown
function, function invocation), and failures abort `evaluate` with an error
value instead of any partial result. -/
theorem claim_C8 :
    (∀ (s : String) (fns : Option FunctionRegistry),
      (∃ q, evaluate s fns = .ok q) ∨
      (∃ e k, evaluate s fns = .error e ∧ EvalError.kind e = some k)) ∧
    ([FailureKind.lex, FailureKind.parseFail, FailureKind.divByZero,
      FailureKind.unknownFn, FailureKind.fnInvocation].Nodup) := by
  constructor
  · intro s fns
    have kindOf : ∀ e : EvalError, e ≠ .outOfFuel → ∃ k, EvalError.kind e = some k := by
      intro e hne
      cases e <;> simp [EvalError.kind] at hne ⊢
    unfold evaluate
    cases hp : parse s with
    | error e =>
      right
      obtain ⟨k, hk⟩ := kindOf e (parse_no_fuel s e hp)
      exact ⟨e, k, rfl, hk⟩
    | ok ast =>
      cases hv : evaluateNode (fns.getD emptyRegistry) ast with
      | ok q => exact Or.inl ⟨q, by dsimp only; rw [hv]⟩
      | error e =>
        right
        obtain ⟨k, hk⟩ :=
          kindOf e ((eval_no_fuel (sizeOf ast + 1)).1 _ ast e (by omega) hv)
        exact ⟨e, k, by dsimp only; rw [hv], hk⟩
  · decide

/-! ## Claims -/

/-- C1: multiplication and division bind tighter than addition and subtraction,
and parentheses override this precedence: evaluate "2 + 3 * 4" = 14,
evaluate "10 - 6 / 2" = 7, evaluate "(2 + 3) * 4" = 20 ≠ evaluate "2 + 3 * 4". -/
theorem claim_C1 :
    evaluate "2 + 3 * 4" none = .ok 14 ∧
    evaluate "10 - 6 / 2" none = .ok 7 ∧
    evaluate "(2 + 3) * 4" none = .ok 20 ∧
    evaluate "(2 + 3) * 4" none ≠ evaluate "2 + 3 * 4" none := by
  have h1 : parse "2 + 3 * 4" =
      .ok (.binaryOp .add (.integer 2) (.binaryOp .mul (.integer 3) (.integer 4))) := rfl
  have h2 : parse "10 - 6 / 2" =
      .ok (.binaryOp .sub (.integer 10) (.binaryOp .div (.integer 6) (.integer 2))) := rfl
  have h3 : parse "(2 + 3) * 4" =
      .ok (.binaryOp .mul (.binaryOp .add (.integer 2) (.integer 3)) (.integer 4)) := rfl
  have e1 : evaluate "2 + 3 * 4" none = .ok 14 := by
    simp [evaluate, h1, evaluateNode, bind, Except.bind]; try norm_num
  have e3 : evaluate "(2 + 3) * 4" none = .ok 20 := by
    simp [evaluate, h3, evaluateNode, bind, Except.bind]; try norm_num
  refine ⟨e1, ?_, e3, ?_⟩
  · simp [evaluate, h2, evaluateNode, bind, Except.bind]; try norm_num
  · rw [e1, e3]
    intro h
    rw [Except.ok.injEq] at h
    norm_num at h

/-- C3: unary plus and minus recurse into factor, so chains fully right-nest
("--5" is -(-5), "-+5" is -(+5)); evaluation maps UnaryOp('+', x) to
evaluate(x) unchanged and UnaryOp('-', x) to the negation of evaluate(x);
evaluate "--5" = 5 and evaluate "-(5 + 3)" = -8. -/
theorem claim_C3 :
    parse "--5" = .ok (.unaryOp .minus (.unaryOp .minus (.integer 5))) ∧
    parse "-+5" = .ok (.unaryOp .minus (.unaryOp .plus (.integer 5))) ∧
    (∀ (fns : FunctionRegistry) (x : ASTNode),
      evaluateNode fns (.unaryOp .plus x) = evaluateNode fns x) ∧
    (∀ (fns : FunctionRegistry) (x : ASTNode),
      evaluateNode fns (.unaryOp .minus x) = (evaluateNode fns x).map (fun v => -v)) ∧
    evaluate "--5" none = .ok 5 ∧
    evaluate "-(5 + 3)" none = .ok (-8) := by
  have h1 : parse "--5" = .ok (.unaryOp .minus (.unaryOp .minus (.integer 5))) := rfl
  have h2 : parse "-+5" = .ok (.unaryOp .minus (.unaryOp .plus (.integer 5))) := rfl
  have h3 : parse "-(5 + 3)" =
      .ok (.unaryOp .minus (.binaryOp .add (.integer 5) (.integer 3))) := rfl
  refine ⟨h1, h2, evaluateNode_unaryPlus, evaluateNode_unaryMinus, ?_, ?_⟩
  · simp [evaluate, h1, evaluateNode, bind, Except.bind]; try norm_num
  · simp [evaluate, h3, evaluateNode, bind, Except.bind]; try norm_num

/-- C4: a division node fails with DivisionByZero exactly when its right
operand evaluates to 0 (for any numerator); with a nonzero right operand the
division succeeds; operands are evaluated left first (a left failure is the
result, before the right operand matters). -/
theorem claim_C4 :
    (∀ (fns : FunctionRegistry) (l r : ASTNode) (lv rv : Rat),
      evaluateNode fns l = .ok lv → evaluateNode fns r = .ok rv →
      ((evaluateNode fns (.binaryOp .div l r) = .error .divisionByZero ↔ rv = 0) ∧
       (rv ≠ 0 → evaluateNode fns (.binaryOp .div l r) = .ok (lv / rv)))) ∧
    (∀ (fns : FunctionRegistry) (l r : ASTNode) (e : EvalError),
      evaluateNode fns l = .error e →
      evaluateNode fns (.binaryOp .div l r) = .error e) := by
  constructor
  · intro fns l r lv rv hl hr
    by_cases hz : rv = 0
    · subst hz
      simp [evaluateNode, hl, hr, bind, Except.bind]
    · constructor
      · simp [evaluateNode, hl, hr, bind, Except.bind, hz]
      · intro _
        simp [evaluateNode, hl, hr, bind, Except.bind, hz]
  · intro fns l r e hl
    simp [evaluateNode, hl, bind, Except.bind]

/-- C4 witness: dividing 5 by 0 fails with DivisionByZero, and a failing left
operand aborts the division with that failure. -/
theorem claim_C4_witness :
    evaluateNode emptyRegistry (.binaryOp .div (.integer 5) (.integer 0)) =
      .error .divisionByZero ∧
    evaluateNode emptyRegistry
        (.binaryOp .div (.functionCall "g" []) (.integer 1)) =
      .error (.unknownFunction "g") := by
  constructor
  · exact (claim_C4.1 emptyRegistry (.integer 5) (.integer 0) 5 0
      (by simp [evaluateNode]) (by simp [evaluateNode])).1.mpr rfl
  · exact claim_C4.2 emptyRegistry (.functionCall "g" []) (.integer 1)
      (.unknownFunction "g") (by simp [evaluateNode, emptyRegistry])

/-- C5: an omitted registry defaults to empty; evaluating a FunctionCall whose
name is absent from the registry fails with UnknownFunction carrying that
name; evaluate "max(1,2)" with no registry fails with UnknownFunction "max". -/
theorem claim_C5 :
    (∀ s, evaluate s none = evaluate s (some emptyRegistry)) ∧
    (∀ (fns : FunctionRegistry) (name : String) (args : List ASTNode),
      fns name = none →
      evaluateNode fns (.functionCall name args) = .error (.unknownFunction name)) ∧
    evaluate "max(1,2)" none = .error (.unknownFunction "max") := by
  refine ⟨fun s => rfl, ?_, ?_⟩
  · intro fns name args h
    simp [evaluateNode, h]
  · have hp : parse "max(1,2)" = .ok (.functionCall "max" [.integer 1, .integer 2]) := rfl
    simp [evaluate, hp, evaluateNode, emptyRegistry]

/-- C5 witness: the empty registry has no "max", so a call to it fails with
UnknownFunction "max". -/
theorem claim_C5_witness :
    evaluateNode emptyRegistry (.functionCall "max" [.integer 1, .integer 2]) =
      .error (.unknownFunction "max") :=
  claim_C5.2.1 emptyRegistry "max" [.integer 1, .integer 2] rfl

/-- C6: arguments of a registered function call are evaluated left to right
before invocation (the first failing argument is the result and the function
is not consulted), and a failing invocation is surfaced as
FunctionInvocationError carrying the function name and the cause. -/
theorem claim_C6 :
    (∀ (fns : FunctionRegistry) (name : String) (args : List ASTNode)
        (f : List Rat → Except String Rat) (vals : List Rat) (cause : String),
      fns name = some f → evaluateArgs fns args = .ok vals → f vals = .error cause →
      evaluateNode fns (.functionCall name args) =
        .error (.functionInvocation name cause)) ∧
    (∀ (fns : FunctionRegistry) (name : String) (args : List ASTNode)
        (f : List Rat → Except String Rat) (e : EvalError),
      fns name = some f → evaluateArgs fns args = .error e →
      evaluateNode fns (.functionCall name args) = .error e) ∧
    (∀ (fns : FunctionRegistry) (a : ASTNode) (rest : List ASTNode) (e : EvalError),
      evaluateNode fns a = .error e → evaluateArgs fns (a :: rest) = .error e) ∧
    (∀ (fns : FunctionRegistry) (a : ASTNode) (rest : List ASTNode) (v : Rat),
      evaluateNode fns a = .ok v →
      evaluateArgs fns (a :: rest) = (evaluateArgs fns rest).map (fun vs => v :: vs)) := by
  refine ⟨?_, ?_, ?_, ?_⟩
  · intro fns name args f vals cause hf hargs hcall
    simp [evaluateNode, hf, hargs, hcall, bind, Except.bind]
  · intro fns name args f e hf hargs
    simp [evaluateNode, hf, hargs, bind, Except.bind]
  · intro fns a rest e ha
    simp [evaluateArgs, ha, bind, Except.bind]
  · intro fns a rest v ha
    cases h : evaluateArgs fns rest <;>
      simp [evaluateArgs, ha, h, bind, Except.bind, Except.map]

/-- C6 witness: with a registry whose function "f" always throws "boom",
calling f(1) fails with FunctionInvocationError "f" "boom"; a failing
argument aborts argument evaluation with its own failure. -/
theorem claim_C6_witness :
    evaluateNode boomRegistry (.functionCall "f" [.integer 1]) =
      .error (.functionInvocation "f" "boom") ∧
    evaluateArgs boomRegistry [.functionCall "g" [], .integer 2] =
      .error (.unknownFunction "g") := by
  constructor
  · exact claim_C6.1 boomRegistry "f" [.integer 1] (fun _ => .error "boom") [1] "boom"
      (by simp [boomRegistry]) (by simp [evaluateArgs, evaluateNode, bind, Except.bind])
      rfl
  · exact claim_C6.2.2.1 boomRegistry (.functionCall "g" []) [.integer 2]
      (.unknownFunction "g") (by simp [evaluateNode, boomRegistry])

/-- C10: division is real (non-truncating): with a nonzero right operand the
result is the exact quotient; evaluate "7 / 2" = 7/2 = 3.5, not the truncated
3. -/
theorem claim_C10 :
    (∀ (fns : FunctionRegistry) (l r : ASTNode) (lv rv : Rat),
      evaluateNode fns l = .ok lv → evaluateNode fns r = .ok rv → rv ≠ 0 →
      evaluateNode fns (.binaryOp .div l r) = .ok (lv / rv)) ∧
    evaluate "7 / 2" none = .ok (7 / 2 : Rat) ∧
    (7 / 2 : Rat) = 3.5 ∧ (7 / 2 : Rat) ≠ 3 := by
  refine ⟨?_, ?_, by norm_num, by norm_num⟩
  · intro fns l r lv rv hl hr hz
    simp [evaluateNode, hl, hr, bind, Except.bind, hz]
  · have hp : parse "7 / 2" = .ok (.binaryOp .div (.integer 7) (.integer 2)) := rfl
    simp [evaluate, hp, evaluateNode, bind, Except.bind]
    try norm_num

/-- C10 witness: 7 / 2 evaluates to the exact quotient 7/2. -/
theorem claim_C10_witness :
    evaluateNode emptyRegistry (.binaryOp .div (.integer 7) (.integer 2)) =
      .ok (7 / 2 : Rat) :=
  claim_C10.1 emptyRegistry (.integer 7) (.integer 2) 7 2
    (by simp [evaluateNode]) (by simp [evaluateNode]) (by norm_num)


/-- C7: parse constructs exactly one AST root: it succeeds exactly when the
expression parse succeeds with EOF as the following token, and fails with a
ParseError whenever the token immediately following the parsed expression is
not EOF. -/
theorem claim_C7 :
    (∀ (s : String) (ast : ASTNode),
      parse s = .ok ast ↔
        ∃ s1 : PState, exprRoot s = .ok (ast, s1) ∧ s1.cur.type = .EOF) ∧
    (∀ (s : String) (ast : ASTNode) (s1 : PState),
      exprRoot s = .ok (ast, s1) → s1.cur.type ≠ .EOF →
      parse s = .error (.parseError (.unexpectedToken s1.cur.position s1.cur.type))) := by
  constructor
  · intro s ast
    constructor
    · intro h
      unfold parse at h
      cases he : exprRoot s with
      | error e => rw [he] at h; cases h
      | ok p =>
        obtain ⟨a, s1⟩ := p
        rw [he] at h
        by_cases hE : s1.cur.type = .EOF
        · simp only [hE, if_pos] at h
          rw [Except.ok.injEq] at h
          subst h
          exact ⟨s1, rfl, hE⟩
        · simp only [hE, if_neg, if_false] at h
          cases h
    · rintro ⟨s1, he, hE⟩
      unfold parse
      rw [he]
      simp [hE]
  · intro s ast s1 he hne
    unfold parse
    rw [he]
    simp [hne]

/-- C7 witness: for input "2 )" the expression parse succeeds but the next
token is RPAREN, so parse fails with the unexpected-token ParseError. -/
theorem claim_C7_witness :
    exprRoot "2 )" = .ok (.integer 2, ⟨⟨.RPAREN, .str ")", 2⟩, [], 3⟩) ∧
    parse "2 )" = .error (.parseError (.unexpectedToken 2 .RPAREN)) := by
  refine ⟨rfl, ?_⟩
  exact claim_C7.2 "2 )" (.integer 2) ⟨⟨.RPAREN, .str ")", 2⟩, [], 3⟩ rfl (by decide)


/-- Whitespace-equivalent inputs give agreeing parses: helper for C9. -/
theorem parse_invariance :
    ∀ (s t : String), nonWsLen s.data = nonWsLen t.data → streamOf s = streamOf t →
      (∃ ast, parse s = .ok ast ∧ parse t = .ok ast) ∨
      ((∃ e, parse s = .error e) ∧ (∃ e, parse t = .error e)) := by
  intro s t hnw hstream
  have hfuel : parseFuel s = parseFuel t := by simp [parseFuel, hnw]
  unfold parse exprRoot
  rcases streamFrom_getNextToken s.data 0 t.data 0 hstream with
    ⟨e1, e2, hg1, hg2⟩ | ⟨t1, r1, q1, t2, r2, q2, hg1, hg2, hty0, hval0, hrec0⟩
  · rw [hg1, hg2]
    exact Or.inr ⟨⟨e1, rfl⟩, ⟨e2, rfl⟩⟩
  · rw [hg1, hg2]
    dsimp only
    have hstep : streamFrom r1 q1 = streamFrom r2 q2 := by
      by_cases hE : t1.type = .EOF
      · have a1 := (getNextToken_shrink _ _ _ _ _ hg1).2.2.2 hE
        have a2 := (getNextToken_shrink _ _ _ _ _ hg2).2.2.2 (by rw [← hty0]; exact hE)
        rw [a1.1, a2.1]
        rfl
      · exact hrec0 hE
    have hinv := runP_invariance (parseFuel s) .expr ⟨t1, r1, q1⟩ ⟨t2, r2, q2⟩
      hty0 hval0 hstep
    rw [← hfuel]
    cases hr1 : runP (parseFuel s) .expr ⟨t1, r1, q1⟩ with
    | error e1 =>
      cases hr2 : runP (parseFuel s) .expr ⟨t2, r2, q2⟩ with
      | error e2 =>
        exact Or.inr ⟨⟨e1, rfl⟩, ⟨e2, rfl⟩⟩
      | ok p2 =>
        rw [hr1, hr2] at hinv
        exact (show False from hinv).elim
    | ok p1 =>
      obtain ⟨ast1, w1⟩ := p1
      cases hr2 : runP (parseFuel s) .expr ⟨t2, r2, q2⟩ with
      | error e2 =>
        rw [hr1, hr2] at hinv
        exact (show False from hinv).elim
      | ok p2 =>
        obtain ⟨ast2, w2⟩ := p2
        rw [hr1, hr2] at hinv
        obtain ⟨hmEq, htyw, hvalw, hstw⟩ := hinv
        subst hmEq
        dsimp only
        by_cases hE : w1.cur.type = .EOF
        · rw [if_pos hE, if_pos (show w2.cur.type = .EOF by rw [← htyw]; exact hE)]
          exact Or.inl ⟨ast1, rfl, rfl⟩
        · rw [if_neg hE, if_neg (show ¬w2.cur.type = .EOF by rw [← htyw]; exact hE)]
          exact Or.inr ⟨⟨_, rfl⟩, ⟨_, rfl⟩⟩

/-- C9: whitespace is skipped by the lexer without producing tokens, so two
inputs with the same non-whitespace content and the same stripped token
stream (inputs differing only in whitespace between tokens) evaluate to
agreeing results; in particular evaluate "  10  +  2  " = evaluate "10+2". -/
theorem claim_C9 :
    (∀ (c : Char) (cs : List Char) (pos : Nat), jsWhitespace c = true →
      getNextToken (c :: cs) pos = getNextToken cs (pos + 1)) ∧
    (∀ (s t : String) (fns : Option FunctionRegistry),
      nonWsLen s.data = nonWsLen t.data → streamOf s = streamOf t →
      sameOutcome (evaluate s fns) (evaluate t fns)) ∧
    evaluate "  10  +  2  " none = evaluate "10+2" none := by
  refine ⟨?_, ?_, ?_⟩
  · intro c cs pos h
    simp [getNextToken, h]
  · intro s t fns hnw hstream
    rcases parse_invariance s t hnw hstream with ⟨ast, hps, hpt⟩ | ⟨⟨e1, hps⟩, ⟨e2, hpt⟩⟩
    · unfold evaluate
      rw [hps, hpt]
      dsimp only
      cases hv : evaluateNode (fns.getD emptyRegistry) ast with
      | ok q => exact Or.inl ⟨q, rfl, rfl⟩
      | error e => exact Or.inr ⟨⟨e, rfl⟩, ⟨e, rfl⟩⟩
    · unfold evaluate
      rw [hps, hpt]
      exact Or.inr ⟨⟨e1, rfl⟩, ⟨e2, rfl⟩⟩
  · have ha : parse "  10  +  2  " = .ok (.binaryOp .add (.integer 10) (.integer 2)) := rfl
    have hb : parse "10+2" = .ok (.binaryOp .add (.integer 10) (.integer 2)) := rfl
    unfold evaluate
    rw [ha, hb]

/-- C9 witness: the lexer skip step at a concrete whitespace character, and
the agreement of the two concrete whitespace-variant inputs. -/
theorem claim_C9_witness :
    getNextToken (' ' :: "10".data) 0 = getNextToken "10".data 1 ∧
    sameOutcome (evaluate "  10  +  2  " none) (evaluate "10+2" none) :=
  ⟨claim_C9.1 ' ' "10".data 0 rfl,
   claim_C9.2.1 "  10  +  2  " "10+2" none (by decide) (by decide)⟩


/-- Character order transfers to code points. -/
theorem char_le_toNat {a b : Char} (h : a ≤ b) : a.toNat ≤ b.toNat := by
  rw [Char.le_def] at h
  simpa [Char.toNat] using h

/-- Digit characters are not whitespace. -/
theorem digit_not_ws (c : Char) (h : c.isDigit = true) : jsWhitespace c = false := by
  simp only [Char.isDigit, Bool.and_eq_true, decide_eq_true_eq] at h
  have h48 : (48 : Nat) ≤ c.toNat := by
    simpa [Char.toNat, UInt32.le_def] using h.1
  have h57 : c.toNat ≤ 57 := by
    simpa [Char.toNat, UInt32.le_def] using h.2
  have hne : ∀ (x : Char), x.toNat < 48 ∨ 57 < x.toNat → ¬(c = x) := by
    intro x hx hcx
    subst hcx
    omega
  have hnr : ¬('\u2000' ≤ c) := by
    intro hle
    have h1 := char_le_toNat hle
    have h8 : Char.toNat '\u2000' = 8192 := by decide
    omega
  simp [jsWhitespace, hne ' ' (by decide), hne '\t' (by decide), hne '\n' (by decide),
    hne '\r' (by decide), hne '\x0b' (by decide), hne '\x0c' (by decide),
    hne '\u00A0' (by decide), hne '\u1680' (by decide), hne '\u2028' (by decide),
    hne '\u2029' (by decide), hne '\u202F' (by decide), hne '\u205F' (by decide),
    hne '\u3000' (by decide), hne '\uFEFF' (by decide), hnr]

/-- takeWhile/dropWhile on a run satisfying the predicate followed by a
non-matching remainder. -/
theorem takeWhile_append_all (p : Char → Bool) :
    ∀ (ds rest : List Char), (∀ c ∈ ds, p c = true) →
      (∀ r rs, rest = r :: rs → p r = false) →
      (ds ++ rest).takeWhile p = ds ∧ (ds ++ rest).dropWhile p = rest := by
  intro ds
  induction ds with
  | nil =>
    intro rest hall hhead
    cases rest with
    | nil => simp
    | cons r rs =>
      have hr := hhead r rs rfl
      simp [List.takeWhile_cons, List.dropWhile_cons, hr]
  | cons d ds1 ih =>
    intro rest hall hhead
    have hd := hall d (by simp)
    obtain ⟨h1, h2⟩ := ih rest (fun c hc => hall c (by simp [hc])) hhead
    simp [List.takeWhile_cons, List.dropWhile_cons, hd, h1, h2]

/-- Lexing a nonempty digit run followed by a non-digit (or nothing) emits the
INTEGER token with the run's base-10 value. -/
theorem getNextToken_digits :
    ∀ (ds rest : List Char) (pos : Nat), ds ≠ [] →
      (∀ c ∈ ds, c.isDigit = true) →
      (∀ r rs, rest = r :: rs → r.isDigit = false) →
      getNextToken (ds ++ rest) pos =
        .ok (⟨.INTEGER, .num (digitsToNat ds), pos⟩, rest, pos + ds.length) := by
  intro ds rest pos hne hall hhead
  cases ds with
  | nil => exact absurd rfl hne
  | cons d ds1 =>
    have hd : d.isDigit = true := hall d (by simp)
    have hw : jsWhitespace d = false := digit_not_ws d hd
    obtain ⟨ht, hdr⟩ := takeWhile_append_all Char.isDigit (d :: ds1) rest hall hhead
    rw [List.cons_append, getNextToken]
    rw [if_neg (by rw [hw]; simp), if_pos hd]
    rw [← List.cons_append, ht, hdr]

/-- Parsing the text `a - b - c` (digit runs separated by " - ") produces the
left-nested subtraction AST. -/
theorem parse_digit_sub_chain :
    ∀ (ds es fs : List Char),
      ds ≠ [] → es ≠ [] → fs ≠ [] →
      (∀ c ∈ ds, c.isDigit = true) → (∀ c ∈ es, c.isDigit = true) →
      (∀ c ∈ fs, c.isDigit = true) →
      parse ⟨(ds ++ (' ' :: '-' :: ' ' :: (es ++ (' ' :: '-' :: ' ' :: fs))))⟩ =
        .ok (.binaryOp .sub
          (.binaryOp .sub (.integer (digitsToNat ds)) (.integer (digitsToNat es)))
          (.integer (digitsToNat fs))) := by
  intro ds es fs hd he hf hdd hed hfd
  have hg0 : getNextToken (ds ++ (' ' :: '-' :: ' ' :: (es ++ (' ' :: '-' :: ' ' :: fs)))) 0 =
      .ok (⟨.INTEGER, .num (digitsToNat ds), 0⟩, (' ' :: '-' :: ' ' :: (es ++ (' ' :: '-' :: ' ' :: fs))), 0 + ds.length) :=
    getNextToken_digits ds (' ' :: '-' :: ' ' :: (es ++ (' ' :: '-' :: ' ' :: fs))) 0 hd hdd
      (fun r rs hr => by injection hr with h1 _; rw [← h1]; rfl)
  have hgB : getNextToken ((es ++ (' ' :: '-' :: ' ' :: fs))) (0 + ds.length + 1 + 1 + 1) =
      .ok (⟨.INTEGER, .num (digitsToNat es), 0 + ds.length + 1 + 1 + 1⟩, (' ' :: '-' :: ' ' :: fs), 0 + ds.length + 1 + 1 + 1 + es.length) :=
    getNextToken_digits es (' ' :: '-' :: ' ' :: fs) (0 + ds.length + 1 + 1 + 1) he hed
      (fun r rs hr => by injection hr with h1 _; rw [← h1]; rfl)
  have hgC : getNextToken fs (0 + ds.length + 1 + 1 + 1 + es.length + 1 + 1 + 1) =
      .ok (⟨.INTEGER, .num (digitsToNat fs), 0 + ds.length + 1 + 1 + 1 + es.length + 1 + 1 + 1⟩, [], 0 + ds.length + 1 + 1 + 1 + es.length + 1 + 1 + 1 + fs.length) := by
    have h0 := getNextToken_digits fs [] (0 + ds.length + 1 + 1 + 1 + es.length + 1 + 1 + 1) hf hfd (fun r rs hr => List.noConfusion hr)
    rwa [List.append_nil] at h0
  have hE1 : eat .MINUS (⟨⟨.MINUS, .str "-", 0 + ds.length + 1⟩, ' ' :: (es ++ (' ' :: '-' :: ' ' :: fs)), 0 + ds.length + 1 + 1⟩ : PState) = .ok (⟨⟨.INTEGER, .num (digitsToNat es), 0 + ds.length + 1 + 1 + 1⟩, (' ' :: '-' :: ' ' :: fs), 0 + ds.length + 1 + 1 + 1 + es.length⟩ : PState) := by
    have st : eat .MINUS (⟨⟨.MINUS, .str "-", 0 + ds.length + 1⟩, ' ' :: (es ++ (' ' :: '-' :: ' ' :: fs)), 0 + ds.length + 1 + 1⟩ : PState) =
        (match getNextToken (' ' :: (es ++ (' ' :: '-' :: ' ' :: fs))) (0 + ds.length + 1 + 1) with
         | .ok (t, cs, p) => .ok (⟨t, cs, p⟩ : PState)
         | .error e => .error e) := rfl
    rw [st,
      show getNextToken (' ' :: (es ++ (' ' :: '-' :: ' ' :: fs))) (0 + ds.length + 1 + 1) =
        getNextToken ((es ++ (' ' :: '-' :: ' ' :: fs))) (0 + ds.length + 1 + 1 + 1) from rfl,
      hgB]
  have hE3 : eat .MINUS (⟨⟨.MINUS, .str "-", 0 + ds.length + 1 + 1 + 1 + es.length + 1⟩, ' ' :: fs, 0 + ds.length + 1 + 1 + 1 + es.length + 1 + 1⟩ : PState) = .ok (⟨⟨.INTEGER, .num (digitsToNat fs), 0 + ds.length + 1 + 1 + 1 + es.length + 1 + 1 + 1⟩, [], 0 + ds.length + 1 + 1 + 1 + es.length + 1 + 1 + 1 + fs.length⟩ : PState) := by
    have st : eat .MINUS (⟨⟨.MINUS, .str "-", 0 + ds.length + 1 + 1 + 1 + es.length + 1⟩, ' ' :: fs, 0 + ds.length + 1 + 1 + 1 + es.length + 1 + 1⟩ : PState) =
        (match getNextToken (' ' :: fs) (0 + ds.length + 1 + 1 + 1 + es.length + 1 + 1) with
         | .ok (t, cs, p) => .ok (⟨t, cs, p⟩ : PState)
         | .error e => .error e) := rfl
    rw [st,
      show getNextToken (' ' :: fs) (0 + ds.length + 1 + 1 + 1 + es.length + 1 + 1) =
        getNextToken fs (0 + ds.length + 1 + 1 + 1 + es.length + 1 + 1 + 1) from rfl,
      hgC]
  have hF0 : ∀ fl, runP (fl + 1) .factor (⟨⟨.INTEGER, .num (digitsToNat ds), 0⟩, (' ' :: '-' :: ' ' :: (es ++ (' ' :: '-' :: ' ' :: fs))), 0 + ds.length⟩ : PState) =
      .ok (.integer (digitsToNat ds : Rat), (⟨⟨.MINUS, .str "-", 0 + ds.length + 1⟩, ' ' :: (es ++ (' ' :: '-' :: ' ' :: fs)), 0 + ds.length + 1 + 1⟩ : PState)) := fun fl => rfl
  have hTL0 : ∀ fl (n : ASTNode), runP (fl + 1) (.termLoop n) (⟨⟨.MINUS, .str "-", 0 + ds.length + 1⟩, ' ' :: (es ++ (' ' :: '-' :: ' ' :: fs)), 0 + ds.length + 1 + 1⟩ : PState) = .ok (n, (⟨⟨.MINUS, .str "-", 0 + ds.length + 1⟩, ' ' :: (es ++ (' ' :: '-' :: ' ' :: fs)), 0 + ds.length + 1 + 1⟩ : PState)) :=
    fun fl n => rfl
  have hT0 : ∀ fl, runP (fl + 2) .term (⟨⟨.INTEGER, .num (digitsToNat ds), 0⟩, (' ' :: '-' :: ' ' :: (es ++ (' ' :: '-' :: ' ' :: fs))), 0 + ds.length⟩ : PState) =
      .ok (.integer (digitsToNat ds : Rat), (⟨⟨.MINUS, .str "-", 0 + ds.length + 1⟩, ' ' :: (es ++ (' ' :: '-' :: ' ' :: fs)), 0 + ds.length + 1 + 1⟩ : PState)) := by
    intro fl
    have st : runP (fl + 2) .term (⟨⟨.INTEGER, .num (digitsToNat ds), 0⟩, (' ' :: '-' :: ' ' :: (es ++ (' ' :: '-' :: ' ' :: fs))), 0 + ds.length⟩ : PState) =
        (match runP (fl + 1) .factor (⟨⟨.INTEGER, .num (digitsToNat ds), 0⟩, (' ' :: '-' :: ' ' :: (es ++ (' ' :: '-' :: ' ' :: fs))), 0 + ds.length⟩ : PState) with
         | .error e => .error e
         | .ok x => runP (fl + 1) (.termLoop x.1) x.2) := rfl
    rw [st, hF0 fl]
    exact hTL0 fl _
  have hF2 : ∀ fl, runP (fl + 1) .factor (⟨⟨.INTEGER, .num (digitsToNat es), 0 + ds.length + 1 + 1 + 1⟩, (' ' :: '-' :: ' ' :: fs), 0 + ds.length + 1 + 1 + 1 + es.length⟩ : PState) =
      .ok (.integer (digitsToNat es : Rat), (⟨⟨.MINUS, .str "-", 0 + ds.length + 1 + 1 + 1 + es.length + 1⟩, ' ' :: fs, 0 + ds.length + 1 + 1 + 1 + es.length + 1 + 1⟩ : PState)) := fun fl => rfl
  have hTL2 : ∀ fl (n : ASTNode), runP (fl + 1) (.termLoop n) (⟨⟨.MINUS, .str "-", 0 + ds.length + 1 + 1 + 1 + es.length + 1⟩, ' ' :: fs, 0 + ds.length + 1 + 1 + 1 + es.length + 1 + 1⟩ : PState) = .ok (n, (⟨⟨.MINUS, .str "-", 0 + ds.length + 1 + 1 + 1 + es.length + 1⟩, ' ' :: fs, 0 + ds.length + 1 + 1 + 1 + es.length + 1 + 1⟩ : PState)) :=
    fun fl n => rfl
  have hT2 : ∀ fl, runP (fl + 2) .term (⟨⟨.INTEGER, .num (digitsToNat es), 0 + ds.length + 1 + 1 + 1⟩, (' ' :: '-' :: ' ' :: fs), 0 + ds.length + 1 + 1 + 1 + es.length⟩ : PState) =
      .ok (.integer (digitsToNat es : Rat), (⟨⟨.MINUS, .str "-", 0 + ds.length + 1 + 1 + 1 + es.length + 1⟩, ' ' :: fs, 0 + ds.length + 1 + 1 + 1 + es.length + 1 + 1⟩ : PState)) := by
    intro fl
    have st : runP (fl + 2) .term (⟨⟨.INTEGER, .num (digitsToNat es), 0 + ds.length + 1 + 1 + 1⟩, (' ' :: '-' :: ' ' :: fs), 0 + ds.length + 1 + 1 + 1 + es.length⟩ : PState) =
        (match runP (fl + 1) .factor (⟨⟨.INTEGER, .num (digitsToNat es), 0 + ds.length + 1 + 1 + 1⟩, (' ' :: '-' :: ' ' :: fs), 0 + ds.length + 1 + 1 + 1 + es.length⟩ : PState) with
         | .error e => .error e
         | .ok x => runP (fl + 1) (.termLoop x.1) x.2) := rfl
    rw [st, hF2 fl]
    exact hTL2 fl _
  have hF4 : ∀ fl, runP (fl + 1) .factor (⟨⟨.INTEGER, .num (digitsToNat fs), 0 + ds.length + 1 + 1 + 1 + es.length + 1 + 1 + 1⟩, [], 0 + ds.length + 1 + 1 + 1 + es.length + 1 + 1 + 1 + fs.length⟩ : PState) =
      .ok (.integer (digitsToNat fs : Rat), (⟨⟨.EOF, .str "", 0 + ds.length + 1 + 1 + 1 + es.length + 1 + 1 + 1 + fs.length⟩, [], 0 + ds.length + 1 + 1 + 1 + es.length + 1 + 1 + 1 + fs.length⟩ : PState)) := fun fl => rfl
  have hTL4 : ∀ fl (n : ASTNode), runP (fl + 1) (.termLoop n) (⟨⟨.EOF, .str "", 0 + ds.length + 1 + 1 + 1 + es.length + 1 + 1 + 1 + fs.length⟩, [], 0 + ds.length + 1 + 1 + 1 + es.length + 1 + 1 + 1 + fs.length⟩ : PState) = .ok (n, (⟨⟨.EOF, .str "", 0 + ds.length + 1 + 1 + 1 + es.length + 1 + 1 + 1 + fs.length⟩, [], 0 + ds.length + 1 + 1 + 1 + es.length + 1 + 1 + 1 + fs.length⟩ : PState)) :=
    fun fl n => rfl
  have hT4 : ∀ fl, runP (fl + 2) .term (⟨⟨.INTEGER, .num (digitsToNat fs), 0 + ds.length + 1 + 1 + 1 + es.length + 1 + 1 + 1⟩, [], 0 + ds.length + 1 + 1 + 1 + es.length + 1 + 1 + 1 + fs.length⟩ : PState) =
      .ok (.integer (digitsToNat fs : Rat), (⟨⟨.EOF, .str "", 0 + ds.length + 1 + 1 + 1 + es.length + 1 + 1 + 1 + fs.length⟩, [], 0 + ds.length + 1 + 1 + 1 + es.length + 1 + 1 + 1 + fs.length⟩ : PState)) := by
    intro fl
    have st : runP (fl + 2) .term (⟨⟨.INTEGER, .num (digitsToNat fs), 0 + ds.length + 1 + 1 + 1 + es.length + 1 + 1 + 1⟩, [], 0 + ds.length + 1 + 1 + 1 + es.length + 1 + 1 + 1 + fs.length⟩ : PState) =
        (match runP (fl + 1) .factor (⟨⟨.INTEGER, .num (digitsToNat fs), 0 + ds.length + 1 + 1 + 1 + es.length + 1 + 1 + 1⟩, [], 0 + ds.length + 1 + 1 + 1 + es.length + 1 + 1 + 1 + fs.length⟩ : PState) with
         | .error e => .error e
         | .ok x => runP (fl + 1) (.termLoop x.1) x.2) := rfl
    rw [st, hF4 fl]
    exact hTL4 fl _
  have hXL5 : ∀ fl (n : ASTNode), runP (fl + 1) (.exprLoop n) (⟨⟨.EOF, .str "", 0 + ds.length + 1 + 1 + 1 + es.length + 1 + 1 + 1 + fs.length⟩, [], 0 + ds.length + 1 + 1 + 1 + es.length + 1 + 1 + 1 + fs.length⟩ : PState) = .ok (n, (⟨⟨.EOF, .str "", 0 + ds.length + 1 + 1 + 1 + es.length + 1 + 1 + 1 + fs.length⟩, [], 0 + ds.length + 1 + 1 + 1 + es.length + 1 + 1 + 1 + fs.length⟩ : PState)) :=
    fun fl n => rfl
  have hXL3 : ∀ fl (n : ASTNode), runP (fl + 3) (.exprLoop n) (⟨⟨.MINUS, .str "-", 0 + ds.length + 1 + 1 + 1 + es.length + 1⟩, ' ' :: fs, 0 + ds.length + 1 + 1 + 1 + es.length + 1 + 1⟩ : PState) =
      .ok (.binaryOp .sub n (.integer (digitsToNat fs)), (⟨⟨.EOF, .str "", 0 + ds.length + 1 + 1 + 1 + es.length + 1 + 1 + 1 + fs.length⟩, [], 0 + ds.length + 1 + 1 + 1 + es.length + 1 + 1 + 1 + fs.length⟩ : PState)) := by
    intro fl n
    have st : runP (fl + 3) (.exprLoop n) (⟨⟨.MINUS, .str "-", 0 + ds.length + 1 + 1 + 1 + es.length + 1⟩, ' ' :: fs, 0 + ds.length + 1 + 1 + 1 + es.length + 1 + 1⟩ : PState) =
        (do
          let s1 ← eat .MINUS (⟨⟨.MINUS, .str "-", 0 + ds.length + 1 + 1 + 1 + es.length + 1⟩, ' ' :: fs, 0 + ds.length + 1 + 1 + 1 + es.length + 1 + 1⟩ : PState)
          let (m, s2) ← runP (fl + 2) .term s1
          runP ((fl + 1) + 1) (.exprLoop (.binaryOp .sub n m)) s2) := rfl
    rw [st, hE3]
    dsimp only [bind, Except.bind]
    rw [hT4 fl]
    dsimp only
    exact hXL5 (fl + 1) _
  have hXL1 : ∀ fl (n : ASTNode), runP (fl + 4) (.exprLoop n) (⟨⟨.MINUS, .str "-", 0 + ds.length + 1⟩, ' ' :: (es ++ (' ' :: '-' :: ' ' :: fs)), 0 + ds.length + 1 + 1⟩ : PState) =
      .ok (.binaryOp .sub (.binaryOp .sub n (.integer (digitsToNat es)))
            (.integer (digitsToNat fs)), (⟨⟨.EOF, .str "", 0 + ds.length + 1 + 1 + 1 + es.length + 1 + 1 + 1 + fs.length⟩, [], 0 + ds.length + 1 + 1 + 1 + es.length + 1 + 1 + 1 + fs.length⟩ : PState)) := by
    intro fl n
    have st : runP (fl + 4) (.exprLoop n) (⟨⟨.MINUS, .str "-", 0 + ds.length + 1⟩, ' ' :: (es ++ (' ' :: '-' :: ' ' :: fs)), 0 + ds.length + 1 + 1⟩ : PState) =
        (do
          let s1 ← eat .MINUS (⟨⟨.MINUS, .str "-", 0 + ds.length + 1⟩, ' ' :: (es ++ (' ' :: '-' :: ' ' :: fs)), 0 + ds.length + 1 + 1⟩ : PState)
          let (m, s2) ← runP ((fl + 1) + 2) .term s1
          runP (fl + 3) (.exprLoop (.binaryOp .sub n m)) s2) := rfl
    rw [st, hE1]
    dsimp only [bind, Except.bind]
    rw [hT2 (fl + 1)]
    dsimp only
    exact hXL3 fl _
  have hexpr : runP (parseFuel ⟨(ds ++ (' ' :: '-' :: ' ' :: (es ++ (' ' :: '-' :: ' ' :: fs))))⟩) .expr (⟨⟨.INTEGER, .num (digitsToNat ds), 0⟩, (' ' :: '-' :: ' ' :: (es ++ (' ' :: '-' :: ' ' :: fs))), 0 + ds.length⟩ : PState) =
      .ok (.binaryOp .sub
        (.binaryOp .sub (.integer (digitsToNat ds)) (.integer (digitsToNat es)))
        (.integer (digitsToNat fs)), (⟨⟨.EOF, .str "", 0 + ds.length + 1 + 1 + 1 + es.length + 1 + 1 + 1 + fs.length⟩, [], 0 + ds.length + 1 + 1 + 1 + es.length + 1 + 1 + 1 + fs.length⟩ : PState)) := by
    have st : runP (parseFuel ⟨(ds ++ (' ' :: '-' :: ' ' :: (es ++ (' ' :: '-' :: ' ' :: fs))))⟩) .expr (⟨⟨.INTEGER, .num (digitsToNat ds), 0⟩, (' ' :: '-' :: ' ' :: (es ++ (' ' :: '-' :: ' ' :: fs))), 0 + ds.length⟩ : PState) =
        (match runP ((4 * nonWsLen (String.data ⟨(ds ++ (' ' :: '-' :: ' ' :: (es ++ (' ' :: '-' :: ' ' :: fs))))⟩) + 5) + 2) .term (⟨⟨.INTEGER, .num (digitsToNat ds), 0⟩, (' ' :: '-' :: ' ' :: (es ++ (' ' :: '-' :: ' ' :: fs))), 0 + ds.length⟩ : PState) with
         | .error e => .error e
         | .ok x => runP ((4 * nonWsLen (String.data ⟨(ds ++ (' ' :: '-' :: ' ' :: (es ++ (' ' :: '-' :: ' ' :: fs))))⟩) + 3) + 4) (.exprLoop x.1) x.2) := rfl
    rw [st, hT0 (4 * nonWsLen (String.data ⟨(ds ++ (' ' :: '-' :: ' ' :: (es ++ (' ' :: '-' :: ' ' :: fs))))⟩) + 5)]
    dsimp only
    exact hXL1 (4 * nonWsLen (String.data ⟨(ds ++ (' ' :: '-' :: ' ' :: (es ++ (' ' :: '-' :: ' ' :: fs))))⟩) + 3) _
  unfold parse exprRoot
  rw [show String.data ⟨(ds ++ (' ' :: '-' :: ' ' :: (es ++ (' ' :: '-' :: ' ' :: fs))))⟩ = (ds ++ (' ' :: '-' :: ' ' :: (es ++ (' ' :: '-' :: ' ' :: fs)))) from rfl, hg0]
  dsimp only
  rw [hexpr]
  rfl

/-- C2: chained same-precedence operators are left-associative: for all digit
runs a, b, c the text "a - b - c" parses to
BinaryOp(-, BinaryOp(-, a, b), c), and evaluate "10 - 3 - 2" = 5. -/
theorem claim_C2 :
    (∀ (ds es fs : List Char),
      ds ≠ [] → es ≠ [] → fs ≠ [] →
      (∀ c ∈ ds, c.isDigit = true) → (∀ c ∈ es, c.isDigit = true) →
      (∀ c ∈ fs, c.isDigit = true) →
      parse ⟨(ds ++ (' ' :: '-' :: ' ' :: (es ++ (' ' :: '-' :: ' ' :: fs))))⟩ =
        .ok (.binaryOp .sub
          (.binaryOp .sub (.integer (digitsToNat ds)) (.integer (digitsToNat es)))
          (.integer (digitsToNat fs)))) ∧
    evaluate "10 - 3 - 2" none = .ok 5 := by
  constructor
  · exact parse_digit_sub_chain
  · have hp : parse "10 - 3 - 2" =
        .ok (.binaryOp .sub (.binaryOp .sub (.integer 10) (.integer 3)) (.integer 2)) := rfl
    simp [evaluate, hp, evaluateNode, bind, Except.bind]
    try norm_num

/-- C2 witness: "10 - 3 - 2" (digit runs 10, 3, 2) parses to the left-nested
subtraction AST. -/
theorem claim_C2_witness :
    parse ⟨['1','0'] ++ (' ' :: '-' :: ' ' :: (['3'] ++ (' ' :: '-' :: ' ' :: ['2'])))⟩ =
      .ok (.binaryOp .sub
        (.binaryOp .sub (.integer (digitsToNat ['1','0'])) (.integer (digitsToNat ['3'])))
        (.integer (digitsToNat ['2']))) :=
  claim_C2.1 ['1','0'] ['3'] ['2'] (by decide) (by decide) (by decide)
    (by decide) (by decide) (by decide)

end ExprEval
